import Mathlib

/-!
Verification of the vim-like editing engine of VimNote
(`src/editor/simple_editor.rs`).

The document is modelled as a `List Char`; all offsets are UTF-8 byte
offsets, exactly as in the Rust code (`String` indexing).  Every Rust
operation that can panic (slicing at a non-boundary or out-of-range
offset, `replace_range` with an inverted range, `String::remove` /
`insert` / `insert_str` at an invalid offset) is modelled in the
`Option` monad: `none` is a panic, `some` is normal completion.

Names follow the source: `handle_key_press`, `handle_normal_mode_key`,
`handle_insert_mode_key`, `handle_command_mode_key`, `execute_command`,
`handle_text_input`, `update_cursor_line_column` (here `updateLC`),
`find_position_on_next_line`, `find_position_on_previous_line`,
`find_word_boundaries`.
-/

namespace VimNote

/-- Byte size of one character in UTF-8, `char::len_utf8` in Rust. -/
def csz (c : Char) : Nat := c.utf8Size

/-- Byte length of a document, `str::len` in Rust. -/
def blen : List Char → Nat
  | [] => 0
  | c :: cs => csz c + blen cs

/-- Characters of the first `i` bytes: Rust `&text[..i]`.
`none` when `i` is out of range or not a character boundary (Rust panic). -/
def takeB : List Char → Nat → Option (List Char)
  | _, 0 => some []
  | [], _ + 1 => none
  | c :: cs, i + 1 =>
    if i + 1 < csz c then none
    else (takeB cs (i + 1 - csz c)).map (fun l => c :: l)

/-- Characters from byte `i` on: Rust `&text[i..]`.
`none` when `i` is out of range or not a character boundary (Rust panic). -/
def dropB : List Char → Nat → Option (List Char)
  | cs, 0 => some cs
  | [], _ + 1 => none
  | c :: cs, i + 1 =>
    if i + 1 < csz c then none
    else dropB cs (i + 1 - csz c)

/-- Rust `str::is_char_boundary` (with in-range check): `i` is `0`, the total
byte length, or the start of a character. -/
def isBoundary (cs : List Char) (i : Nat) : Bool := (takeB cs i).isSome

/-- Rust `&text[a..b]`: `none` on an inverted range, an out-of-range offset
or a non-boundary offset (all Rust panics). -/
def sliceB (cs : List Char) (a b : Nat) : Option (List Char) :=
  if a ≤ b then
    match dropB cs a with
    | none => none
    | some s => takeB s (b - a)
  else none

/-- Rust `text.replace_range(a..b, "")`. -/
def removeRange (cs : List Char) (a b : Nat) : Option (List Char) :=
  if a ≤ b then
    match takeB cs a, dropB cs b with
    | some pre, some post => some (pre ++ post)
    | _, _ => none
  else none

/-- Rust `text.insert_str(i, s)` (and `text.insert(i, c)` with `s = [c]`). -/
def insertStr (cs : List Char) (i : Nat) (s : List Char) : Option (List Char) :=
  match takeB cs i, dropB cs i with
  | some pre, some post => some (pre ++ s ++ post)
  | _, _ => none

/-- Rust `text.remove(i)`: removes the character starting at byte `i`. -/
def removeAt (cs : List Char) (i : Nat) : Option (List Char) :=
  match takeB cs i, dropB cs i with
  | some pre, some post =>
    match post with
    | [] => none
    | _ :: rest => some (pre ++ rest)
  | _, _ => none

/-- Rust `slice.find('\n')`: byte offset of the first line terminator. -/
def findNL : List Char → Option Nat
  | [] => none
  | c :: cs =>
    if c = '\n' then some 0 else (findNL cs).map (fun i => csz c + i)

/-- Rust `slice.rfind('\n')`: byte offset of the last line terminator. -/
def rfindNL : List Char → Option Nat
  | [] => none
  | c :: cs =>
    match rfindNL cs with
    | some i => some (csz c + i)
    | none => if c = '\n' then some 0 else none

/-- Number of line terminators, Rust `text_before_cursor.matches('\n').count()`. -/
def countNL (cs : List Char) : Nat := cs.count '\n'

/-- Offset just past the last line terminator of a prefix:
`prefix.rfind('\n').map(|pos| pos + 1).unwrap_or(0)` in the source. -/
def lineStartOf (pre : List Char) : Nat :=
  match rfindNL pre with
  | some p => p + 1
  | none => 0

/-- End offset of the current line including its terminator:
`text[cursor..].find('\n').map(|p| cursor + p + 1).unwrap_or(text.len())`. -/
def lineEndNL (cursor : Nat) (suf : List Char) (total : Nat) : Nat :=
  match findNL suf with
  | some p => cursor + p + 1
  | none => total

/-- End offset of the current line excluding its terminator:
`text[cursor..].find('\n').map(|p| cursor + p).unwrap_or(text.len())`. -/
def lineEndNoNL (cursor : Nat) (suf : List Char) (total : Nat) : Nat :=
  match findNL suf with
  | some p => cursor + p
  | none => total

/-- Rust `char::is_whitespace` restricted to one-byte (ASCII) characters,
the only ones the byte-stepping loops of the source ever test. -/
def isWS (c : Char) : Bool :=
  c = ' ' || c = '\t' || c = '\n' || c = '\r' || c = '\x0b' || c = '\x0c'

/-- Rust `c.is_alphanumeric() || c == '_'` (`is_word_char` in the source). -/
def isWordChar (c : Char) : Bool := c.isAlphanum || c = '_'

/-- The byte-stepping scan loops of the source
(`while end < text.len() && pred(&text[end..end+1]) { end += 1 }`):
the slice `text[end..end+1]` is one byte wide, so reaching a multi-byte
character is a Rust panic (`none`).  Returns the final offset and the
unscanned suffix. -/
def skipRun (p : Char → Bool) : List Char → Nat → Option (Nat × List Char)
  | [], pos => some (pos, [])
  | c :: cs, pos =>
    if csz c ≠ 1 then none
    else if p c then skipRun p cs (pos + 1)
    else some (pos, c :: cs)

/-- The backward byte-stepping loops of `b`
(`while pos > 0 && pred(&text[pos-1..pos]) { pos -= 1 }`), acting on the
reversed prefix before `pos`. -/
def skipRunBack (p : Char → Bool) : List Char → Nat → Option (Nat × List Char)
  | [], pos => some (pos, [])
  | c :: cs, pos =>
    if csz c ≠ 1 then none
    else if p c then skipRunBack p cs (pos - 1)
    else some (pos, c :: cs)

/-- The character walk of `find_position_on_next_line` /
`find_position_on_previous_line`:
`while char_pos < limit && col_count < target { char_pos += c.len_utf8(); col_count += 1 }`
over the characters `cs` starting at byte `pos`. -/
def walkTo (cs : List Char) (pos limit cols target : Nat) : Nat :=
  match cs with
  | [] => pos
  | c :: rest =>
    if pos < limit ∧ cols < target then walkTo rest (pos + csz c) limit (cols + 1) target
    else pos

/-- Vim mode of the engine (`VimMode` in the source). -/
inductive VimMode where
  | Normal
  | Insert
  | Command
deriving DecidableEq, Repr

/-- Pending operator (`VimOperation` in the source). -/
inductive VimOperation where
  | None
  | Delete
  | Yank
  | Change
deriving DecidableEq, Repr

/-- Host actions returned by `execute_command`. -/
inductive Action where
  | save
  | quit
  | save_quit
deriving DecidableEq, Repr

/-- The logical keys the engine distinguishes; every other key falls into
the catch-all arm of the source's `match` and is represented by `Other`. -/
inductive Key where
  | D | Y | C | P | H | L | K | J | W | B | I | A | X | O
  | Num0 | Num4 | Num9
  | Escape | Enter | Backspace | Delete | Home | End
  | ArrowLeft | ArrowRight | ArrowUp | ArrowDown
  | Other
deriving DecidableEq, Repr

/-- Key modifiers; the engine only reads `shift`. -/
structure Modifiers where
  shift : Bool
deriving DecidableEq, Repr

/-- The engine state (`SimpleEditor` in the source). -/
structure Editor where
  cursor_position : Nat
  cursor_line : Nat
  cursor_column : Nat
  desired_column : Nat
  vim_mode : VimMode
  command_buffer : List Char
  current_operation : VimOperation
  register_buffer : List Char
deriving DecidableEq, Repr

/-- `SimpleEditor::new()`. -/
def initialEditor : Editor :=
  ⟨0, 0, 0, 0, VimMode.Normal, [], VimOperation.None, []⟩

/-- Result of one dispatch: new state, new document, the `(consumed, action)`
pair the handler returns. -/
structure StepOut where
  ed : Editor
  text : List Char
  consumed : Bool
  action : Option Action
deriving DecidableEq, Repr

/-- Rust `update_cursor_line_column`: recompute `cursor_line` and
`cursor_column` from `cursor` (with the `cursor > len` safety fallback of
the source); `none` when `&text[..cursor]` is a panicking slice. -/
def updateLC (text : List Char) (cursor : Nat) : Option (Nat × Nat) :=
  match (if cursor ≤ blen text then takeB text cursor else some text) with
  | none => none
  | some tbc => some (countNL tbc, cursor - lineStartOf tbc)

/-- Rust `find_position_on_next_line`.  The outer `Option` is panic; the
inner one is the function's own `Option<usize>` result. -/
def find_position_on_next_line (e : Editor) (text : List Char) :
    Option (Option Nat) :=
  if text = [] then some none
  else
    let target := max e.desired_column e.cursor_column
    match dropB text e.cursor_position with
    | none => none
    | some suf =>
      match findNL suf with
      | none => some none
      | some off =>
        let nls := e.cursor_position + off + 1
        if nls ≥ blen text then some none
        else
          match dropB text nls with
          | none => none
          | some suf2 =>
            let nle :=
              match findNL suf2 with
              | some p => nls + p
              | none => blen text
            if nls = nle then some (some nls)
            else
              let lineLen := nle - nls
              let newOff := min target lineLen
              some (some (walkTo suf2 nls nle 0 newOff))

/-- Rust `find_position_on_previous_line`. -/
def find_position_on_previous_line (e : Editor) (text : List Char) :
    Option (Option Nat) :=
  if text = [] then some none
  else
    match takeB text e.cursor_position with
    | none => none
    | some pre =>
      let cls := lineStartOf pre
      if cls = 0 then some none
      else
        let target := max e.desired_column e.cursor_column
        match takeB text (cls - 1) with
        | none => none
        | some pre2 =>
          let pls := lineStartOf pre2
          if pls = cls - 1 then some (some pls)
          else
            let prevLen := cls - 1 - pls
            let newOff := min target prevLen
            match dropB text pls with
            | none => none
            | some suf3 => some (some (walkTo suf3 pls (cls - 1) 0 newOff))

/-- Fuelled backward scan of `find_word_boundaries`: each iteration moves
`start` strictly down, so fuel `start` is always enough. -/
def backScan (text : List Char) : Nat → Nat → Option Nat
  | 0, start => some start
  | fuel + 1, start =>
    if start = 0 then some start
    else
      match takeB text (start - 1) with
      | none => none
      | some pre =>
        let pcp :=
          match pre.getLast? with
          | some c => blen pre - csz c
          | none => 0
        match dropB text pcp with
        | none => none
        | some [] => some start
        | some (pc :: _) =>
          if isWordChar pc then backScan text fuel pcp else some start

/-- Forward scan of `find_word_boundaries` over the suffix at the cursor. -/
def fwdScan : List Char → Nat → Nat
  | [], en => en
  | c :: cs, en => if isWordChar c then fwdScan cs (en + csz c) else en

/-- Rust `find_word_boundaries`. -/
def find_word_boundaries (text : List Char) (pos : Nat) :
    Option (Nat × Nat) :=
  if text = [] ∨ pos ≥ blen text then some (0, 0)
  else
    match dropB text pos with
    | none => none
    | some suf =>
      let current_char := suf.head?.getD ' '
      if ¬ isWordChar current_char then some (pos, pos + csz current_char)
      else
        match backScan text pos pos with
        | none => none
        | some start => some (start, fwdScan suf pos)

/-- The `(Delete, W)` arm with the register not holding the literal `"i"`:
delete from the cursor over the non-whitespace run then the whitespace run. -/
def dwStep (e : Editor) (text : List Char) : Option StepOut :=
  if e.cursor_position < blen text then
    match dropB text e.cursor_position with
    | none => none
    | some suf =>
      match skipRun (fun c => !isWS c) suf e.cursor_position with
      | none => none
      | some (p1, rest1) =>
        match skipRun isWS rest1 p1 with
        | none => none
        | some (endPos, _) =>
          if endPos > e.cursor_position then
            match sliceB text e.cursor_position endPos,
                  removeRange text e.cursor_position endPos with
            | some reg, some t2 =>
              match updateLC t2 e.cursor_position with
              | none => none
              | some lc =>
                some ⟨{ e with register_buffer := reg, cursor_line := lc.1, cursor_column := lc.2, current_operation := VimOperation.None },
                      t2, true, none⟩
            | _, _ => none
          else
            some ⟨{ e with current_operation := VimOperation.None },
                  text, true, none⟩
  else some ⟨{ e with current_operation := VimOperation.None }, text, true, none⟩

/-- The `(Delete, D)` arm (`dd`), including the source's
`adjusted_line_end` computation. -/
def ddStep (e : Editor) (text : List Char) : Option StepOut :=
  match takeB text e.cursor_position with
  | none => none
  | some pre =>
    let line_start := lineStartOf pre
    match dropB text e.cursor_position with
    | none => none
    | some suf =>
      let line_end := lineEndNL e.cursor_position suf (blen text)
      let adjusted_line_end :=
        if line_end > 0 ∧ line_end < blen text then line_end
        else if line_start > 0 then line_start - 1
        else line_end
      match sliceB text line_start line_end with
      | none => none
      | some reg =>
        match removeRange text line_start adjusted_line_end with
        | none => none
        | some t2 =>
          let c2 := if line_start > blen t2 then blen t2 - 1 else line_start
          match updateLC t2 c2 with
          | none => none
          | some lc =>
            some ⟨{ e with register_buffer := reg, cursor_position := c2, cursor_line := lc.1, cursor_column := lc.2, current_operation := VimOperation.None },
                  t2, true, none⟩

/-- The `(Yank, W)` arm (`yw`). -/
def ywStep (e : Editor) (text : List Char) : Option StepOut :=
  if e.cursor_position < blen text then
    match dropB text e.cursor_position with
    | none => none
    | some suf =>
      match skipRun (fun c => !isWS c) suf e.cursor_position with
      | none => none
      | some (p1, rest1) =>
        match skipRun isWS rest1 p1 with
        | none => none
        | some (endPos, _) =>
          if endPos > e.cursor_position then
            match sliceB text e.cursor_position endPos with
            | none => none
            | some reg =>
              some ⟨{ e with register_buffer := reg, current_operation := VimOperation.None },
                    text, true, none⟩
          else
            some ⟨{ e with current_operation := VimOperation.None },
                  text, true, none⟩
  else some ⟨{ e with current_operation := VimOperation.None }, text, true, none⟩

/-- The `(Yank, Y)` arm (`yy`): copy the current line including its
terminator into the register. -/
def yyStep (e : Editor) (text : List Char) : Option StepOut :=
  match takeB text e.cursor_position with
  | none => none
  | some pre =>
    let line_start := lineStartOf pre
    match dropB text e.cursor_position with
    | none => none
    | some suf =>
      let line_end := lineEndNL e.cursor_position suf (blen text)
      match sliceB text line_start line_end with
      | none => none
      | some reg =>
        some ⟨{ e with register_buffer := reg, current_operation := VimOperation.None },
              text, true, none⟩

/-- The `(Change, W)` arm with the register not holding `"i"` (`cw`). -/
def cwStep (e : Editor) (text : List Char) : Option StepOut :=
  if e.cursor_position < blen text then
    match dropB text e.cursor_position with
    | none => none
    | some suf =>
      match skipRun (fun c => !isWS c) suf e.cursor_position with
      | none => none
      | some (p1, rest1) =>
        match skipRun isWS rest1 p1 with
        | none => none
        | some (endPos, _) =>
          if endPos > e.cursor_position then
            match sliceB text e.cursor_position endPos,
                  removeRange text e.cursor_position endPos with
            | some reg, some t2 =>
              match updateLC t2 e.cursor_position with
              | none => none
              | some lc =>
                some ⟨{ e with register_buffer := reg, cursor_line := lc.1, cursor_column := lc.2, vim_mode := VimMode.Insert, current_operation := VimOperation.None },
                      t2, true, none⟩
            | _, _ => none
          else
            some ⟨{ e with vim_mode := VimMode.Insert, current_operation := VimOperation.None },
                  text, true, none⟩
  else
    some ⟨{ e with vim_mode := VimMode.Insert, current_operation := VimOperation.None },
          text, true, none⟩

/-- The `(Delete, W)` arm with the register holding `"i"` (`diw`). -/
def diwStep (e : Editor) (text : List Char) : Option StepOut :=
  if text ≠ [] ∧ e.cursor_position < blen text then
    match find_word_boundaries text e.cursor_position with
    | none => none
    | some (s, en) =>
      if en > s then
        match sliceB text s en, removeRange text s en with
        | some content, some t2 =>
          match updateLC t2 s with
          | none => none
          | some lc =>
            some ⟨{ e with register_buffer := content, cursor_position := s, cursor_line := lc.1, cursor_column := lc.2, desired_column := lc.2, current_operation := VimOperation.None },
                  t2, true, none⟩
        | _, _ => none
      else
        some ⟨{ e with current_operation := VimOperation.None },
              text, true, none⟩
  else some ⟨{ e with current_operation := VimOperation.None }, text, true, none⟩

/-- The `(Change, W)` arm with the register holding `"i"` (`ciw`). -/
def ciwStep (e : Editor) (text : List Char) : Option StepOut :=
  if text ≠ [] ∧ e.cursor_position < blen text then
    match find_word_boundaries text e.cursor_position with
    | none => none
    | some (s, en) =>
      if en > s then
        match sliceB text s en, removeRange text s en with
        | some content, some t2 =>
          match updateLC t2 s with
          | none => none
          | some lc =>
            some ⟨{ e with register_buffer := content, cursor_position := s, cursor_line := lc.1, cursor_column := lc.2, desired_column := lc.2, vim_mode := VimMode.Insert, current_operation := VimOperation.None },
                  t2, true, none⟩
        | _, _ => none
      else
        some ⟨{ e with vim_mode := VimMode.Insert, current_operation := VimOperation.None },
              text, true, none⟩
  else
    some ⟨{ e with vim_mode := VimMode.Insert, current_operation := VimOperation.None },
          text, true, none⟩

/-- The `(Change, C)` arm (`cc`): delete the line content, keep the slot. -/
def ccStep (e : Editor) (text : List Char) : Option StepOut :=
  match takeB text e.cursor_position with
  | none => none
  | some pre =>
    let line_start := lineStartOf pre
    match dropB text e.cursor_position with
    | none => none
    | some suf =>
      let line_end := lineEndNoNL e.cursor_position suf (blen text)
      match sliceB text line_start line_end with
      | none => none
      | some reg =>
        match removeRange text line_start line_end with
        | none => none
        | some t2 =>
          match updateLC t2 line_start with
          | none => none
          | some lc =>
            some ⟨{ e with register_buffer := reg, cursor_position := line_start, cursor_line := lc.1, cursor_column := lc.2, vim_mode := VimMode.Insert, current_operation := VimOperation.None },
                  t2, true, none⟩

/-- Rust `self.register_buffer.contains('\n')`. -/
def containsNL (cs : List Char) : Bool := cs.any (fun c => c = '\n')

/-- The `P` arm of normal mode: paste the register. -/
def pasteStep (e : Editor) (text : List Char) (m : Modifiers) : Option StepOut :=
  if e.register_buffer ≠ [] then
    if m.shift then
      if containsNL e.register_buffer then
        match takeB text e.cursor_position with
        | none => none
        | some pre =>
          let ls := lineStartOf pre
          match insertStr text ls e.register_buffer with
          | none => none
          | some t2 =>
            let c2 := ls + blen e.register_buffer
            match updateLC t2 c2 with
            | none => none
            | some lc =>
              some ⟨{ e with cursor_position := c2, cursor_line := lc.1, cursor_column := lc.2 }, t2, true, none⟩
      else
        match insertStr text e.cursor_position e.register_buffer with
        | none => none
        | some t2 =>
          let c2 := e.cursor_position + blen e.register_buffer
          match updateLC t2 c2 with
          | none => none
          | some lc =>
            some ⟨{ e with cursor_position := c2, cursor_line := lc.1, cursor_column := lc.2 }, t2, true, none⟩
    else
      if containsNL e.register_buffer then
        match dropB text e.cursor_position with
        | none => none
        | some suf =>
          let le := lineEndNL e.cursor_position suf (blen text)
          match insertStr text le e.register_buffer with
          | none => none
          | some t2 =>
            let c2 := le + blen e.register_buffer
            match updateLC t2 c2 with
            | none => none
            | some lc =>
              some ⟨{ e with cursor_position := c2, cursor_line := lc.1, cursor_column := lc.2 }, t2, true, none⟩
      else
        let ip :=
          if e.cursor_position < blen text then e.cursor_position + 1
          else e.cursor_position
        match insertStr text ip e.register_buffer with
        | none => none
        | some t2 =>
          let c2 := ip + blen e.register_buffer
          match updateLC t2 c2 with
          | none => none
          | some lc =>
            some ⟨{ e with cursor_position := c2, cursor_line := lc.1, cursor_column := lc.2 }, t2, true, none⟩
  else some ⟨e, text, true, none⟩

/-- Left motion (`h` / left arrow): back one byte, refresh `desired_column`. -/
def hStep (e : Editor) (text : List Char) : Option StepOut :=
  if e.cursor_position > 0 then
    match updateLC text (e.cursor_position - 1) with
    | none => none
    | some lc =>
      some ⟨{ e with cursor_position := e.cursor_position - 1, cursor_line := lc.1, cursor_column := lc.2, desired_column := lc.2 }, text, true, none⟩
  else some ⟨e, text, true, none⟩

/-- Right motion (`l` / right arrow): forward one byte, refresh
`desired_column`. -/
def lStep (e : Editor) (text : List Char) : Option StepOut :=
  if e.cursor_position < blen text then
    match updateLC text (e.cursor_position + 1) with
    | none => none
    | some lc =>
      some ⟨{ e with cursor_position := e.cursor_position + 1, cursor_line := lc.1, cursor_column := lc.2, desired_column := lc.2 }, text, true, none⟩
  else some ⟨e, text, true, none⟩

/-- Up motion (`k` / up arrow): move, then restore the saved
`desired_column` (the record update leaves it untouched). -/
def upStep (e : Editor) (text : List Char) : Option StepOut :=
  match find_position_on_previous_line e text with
  | none => none
  | some none => some ⟨e, text, true, none⟩
  | some (some pos) =>
    match updateLC text pos with
    | none => none
    | some lc =>
      some ⟨{ e with cursor_position := pos, cursor_line := lc.1, cursor_column := lc.2 }, text, true, none⟩

/-- Down motion (`j` / down arrow). -/
def downStep (e : Editor) (text : List Char) : Option StepOut :=
  match find_position_on_next_line e text with
  | none => none
  | some none => some ⟨e, text, true, none⟩
  | some (some pos) =>
    match updateLC text pos with
    | none => none
    | some lc =>
      some ⟨{ e with cursor_position := pos, cursor_line := lc.1, cursor_column := lc.2 }, text, true, none⟩

/-- The `w` motion: skip the non-whitespace run then the whitespace run. -/
def wMotionStep (e : Editor) (text : List Char) : Option StepOut :=
  if e.cursor_position < blen text then
    match dropB text e.cursor_position with
    | none => none
    | some suf =>
      match skipRun (fun c => !isWS c) suf e.cursor_position with
      | none => none
      | some (p1, rest1) =>
        match skipRun isWS rest1 p1 with
        | none => none
        | some (p2, _) =>
          if p2 > e.cursor_position ∧ p2 ≤ blen text then
            match updateLC text p2 with
            | none => none
            | some lc =>
              some ⟨{ e with cursor_position := p2, cursor_line := lc.1, cursor_column := lc.2, desired_column := lc.2 },
                    text, true, none⟩
          else some ⟨e, text, true, none⟩
  else some ⟨e, text, true, none⟩

/-- The `b` motion: skip whitespace backward, then non-whitespace backward. -/
def bMotionStep (e : Editor) (text : List Char) : Option StepOut :=
  if e.cursor_position > 0 then
    match takeB text e.cursor_position with
    | none => none
    | some pre =>
      match skipRunBack isWS pre.reverse e.cursor_position with
      | none => none
      | some (p1, rem) =>
        match skipRunBack (fun c => !isWS c) rem p1 with
        | none => none
        | some (p2, _) =>
          if p2 < e.cursor_position then
            match updateLC text p2 with
            | none => none
            | some lc =>
              some ⟨{ e with cursor_position := p2, cursor_line := lc.1, cursor_column := lc.2, desired_column := lc.2 },
                    text, true, none⟩
          else some ⟨e, text, true, none⟩
  else some ⟨e, text, true, none⟩

/-- The `0` key: jump to line start, refresh `desired_column`. -/
def lineStartStep (e : Editor) (text : List Char) : Option StepOut :=
  match takeB text e.cursor_position with
  | none => none
  | some pre =>
    let ls := lineStartOf pre
    match updateLC text ls with
    | none => none
    | some lc =>
      some ⟨{ e with cursor_position := ls, cursor_line := lc.1, cursor_column := lc.2, desired_column := lc.2 },
            text, true, none⟩

/-- The `4` key (`$`): jump to line end, refresh `desired_column`. -/
def lineEndStep (e : Editor) (text : List Char) : Option StepOut :=
  match dropB text e.cursor_position with
  | none => none
  | some suf =>
    let le := lineEndNoNL e.cursor_position suf (blen text)
    match updateLC text le with
    | none => none
    | some lc =>
      some ⟨{ e with cursor_position := le, cursor_line := lc.1, cursor_column := lc.2, desired_column := lc.2 },
            text, true, none⟩

/-- The `i` / `I` key: enter insert mode (shift first jumps to line start). -/
def iStep (e : Editor) (text : List Char) (m : Modifiers) : Option StepOut :=
  if m.shift then
    match takeB text e.cursor_position with
    | none => none
    | some pre =>
      let ls := lineStartOf pre
      match updateLC text ls with
      | none => none
      | some lc =>
        some ⟨{ e with cursor_position := ls, cursor_line := lc.1, cursor_column := lc.2, vim_mode := VimMode.Insert },
              text, true, none⟩
  else some ⟨{ e with vim_mode := VimMode.Insert }, text, true, none⟩

/-- The `a` / `A` key. -/
def aStep (e : Editor) (text : List Char) (m : Modifiers) : Option StepOut :=
  if m.shift then
    match dropB text e.cursor_position with
    | none => none
    | some suf =>
      let le := lineEndNoNL e.cursor_position suf (blen text)
      match updateLC text le with
      | none => none
      | some lc =>
        some ⟨{ e with cursor_position := le, cursor_line := lc.1, cursor_column := lc.2, vim_mode := VimMode.Insert },
              text, true, none⟩
  else
    if e.cursor_position < blen text then
      match updateLC text (e.cursor_position + 1) with
      | none => none
      | some lc =>
        some ⟨{ e with cursor_position := e.cursor_position + 1, cursor_line := lc.1, cursor_column := lc.2, vim_mode := VimMode.Insert }, text, true, none⟩
    else some ⟨{ e with vim_mode := VimMode.Insert }, text, true, none⟩

/-- The `x` key: delete the character at the cursor. -/
def xStep (e : Editor) (text : List Char) : Option StepOut :=
  if e.cursor_position < blen text then
    match removeAt text e.cursor_position with
    | none => none
    | some t2 =>
      match updateLC t2 e.cursor_position with
      | none => none
      | some lc =>
        some ⟨{ e with cursor_line := lc.1, cursor_column := lc.2 },
              t2, true, none⟩
  else some ⟨e, text, true, none⟩

/-- The `o` / `O` key: open a line below / above and enter insert mode. -/
def oStep (e : Editor) (text : List Char) (m : Modifiers) : Option StepOut :=
  if m.shift then
    match takeB text e.cursor_position with
    | none => none
    | some pre =>
      let ls := lineStartOf pre
      match insertStr text ls ['\n'] with
      | none => none
      | some t2 =>
        match updateLC t2 ls with
        | none => none
        | some lc =>
          some ⟨{ e with cursor_position := ls, cursor_line := lc.1, cursor_column := lc.2, vim_mode := VimMode.Insert },
                t2, true, none⟩
  else
    match dropB text e.cursor_position with
    | none => none
    | some suf =>
      let le := lineEndNoNL e.cursor_position suf (blen text)
      match insertStr text le ['\n'] with
      | none => none
      | some t2 =>
        match updateLC t2 (le + 1) with
        | none => none
        | some lc =>
          some ⟨{ e with cursor_position := le + 1, cursor_line := lc.1, cursor_column := lc.2, vim_mode := VimMode.Insert },
                t2, true, none⟩

/-- The catch-all arm of normal mode: refresh `desired_column`, report the
key as not consumed. -/
def normalOther (e : Editor) (text : List Char) : Option StepOut :=
  some ⟨{ e with desired_column := e.cursor_column }, text, false, none⟩

/-- The second half of `handle_normal_mode_key`: the `match key` on
operation initiators, motions and mode switches. -/
def normalBase (e : Editor) (k : Key) (text : List Char) (m : Modifiers) :
    Option StepOut :=
  match k with
  | Key.D =>
    some ⟨{ e with current_operation := VimOperation.Delete }, text, true, none⟩
  | Key.Y =>
    some ⟨{ e with current_operation := VimOperation.Yank }, text, true, none⟩
  | Key.C =>
    some ⟨{ e with current_operation := VimOperation.Change }, text, true, none⟩
  | Key.P => pasteStep e text m
  | Key.H => hStep e text
  | Key.ArrowLeft => hStep e text
  | Key.L => lStep e text
  | Key.ArrowRight => lStep e text
  | Key.K => upStep e text
  | Key.ArrowUp => upStep e text
  | Key.J => downStep e text
  | Key.ArrowDown => downStep e text
  | Key.W => wMotionStep e text
  | Key.B => bMotionStep e text
  | Key.Num0 => lineStartStep e text
  | Key.Num4 => lineEndStep e text
  | Key.I => iStep e text m
  | Key.A => aStep e text m
  | Key.Num9 =>
    if m.shift then
      some ⟨{ e with vim_mode := VimMode.Command, command_buffer := [':'] }, text, true, none⟩
    else normalOther e text
  | Key.X => xStep e text
  | Key.O => oStep e text m
  | _ => normalOther e text

/-- Rust `handle_normal_mode_key`: the pending-operation `match` first
(with its guards on the register holding the literal `"i"`), then the
base key handling with the operation reset on an unrecognized combination. -/
def handle_normal_mode_key (e : Editor) (k : Key) (text : List Char)
    (m : Modifiers) : Option StepOut :=
  if e.current_operation ≠ VimOperation.None then
    match e.current_operation, k with
    | VimOperation.Delete, Key.W =>
      if e.register_buffer ≠ ['i'] then dwStep e text else diwStep e text
    | VimOperation.Delete, Key.D => ddStep e text
    | VimOperation.Yank, Key.W => ywStep e text
    | VimOperation.Yank, Key.Y => yyStep e text
    | VimOperation.Change, Key.W =>
      if e.register_buffer ≠ ['i'] then cwStep e text else ciwStep e text
    | VimOperation.Delete, Key.I =>
      some ⟨{ e with register_buffer := ['i'] }, text, true, none⟩
    | VimOperation.Change, Key.I =>
      some ⟨{ e with register_buffer := ['i'] }, text, true, none⟩
    | VimOperation.Change, Key.C => ccStep e text
    | _, _ =>
      normalBase { e with current_operation := VimOperation.None } k text m
  else normalBase e k text m

/-- Line-start jump of insert mode (Home): no `desired_column` refresh. -/
def homeStep (e : Editor) (text : List Char) : Option StepOut :=
  match takeB text e.cursor_position with
  | none => none
  | some pre =>
    let ls := lineStartOf pre
    match updateLC text ls with
    | none => none
    | some lc =>
      some ⟨{ e with cursor_position := ls, cursor_line := lc.1, cursor_column := lc.2 }, text, true, none⟩

/-- Line-end jump of insert mode (End): no `desired_column` refresh. -/
def endStep (e : Editor) (text : List Char) : Option StepOut :=
  match dropB text e.cursor_position with
  | none => none
  | some suf =>
    let le := lineEndNoNL e.cursor_position suf (blen text)
    match updateLC text le with
    | none => none
    | some lc =>
      some ⟨{ e with cursor_position := le, cursor_line := lc.1, cursor_column := lc.2 }, text, true, none⟩

/-- Rust `handle_insert_mode_key`. -/
def handle_insert_mode_key (e : Editor) (k : Key) (text : List Char)
    (_m : Modifiers) : Option StepOut :=
  match k with
  | Key.Escape =>
    if e.cursor_position > 0 ∧ text ≠ [] then
      match updateLC text (e.cursor_position - 1) with
      | none => none
      | some lc =>
        some ⟨{ e with vim_mode := VimMode.Normal, cursor_position := e.cursor_position - 1, cursor_line := lc.1, cursor_column := lc.2 },
              text, true, none⟩
    else some ⟨{ e with vim_mode := VimMode.Normal }, text, true, none⟩
  | Key.Enter =>
    if e.cursor_position ≤ blen text then
      match insertStr text e.cursor_position ['\n'] with
      | none => none
      | some t2 =>
        match updateLC t2 (e.cursor_position + 1) with
        | none => none
        | some lc =>
          some ⟨{ e with cursor_position := e.cursor_position + 1, cursor_line := lc.1, cursor_column := lc.2 },
                t2, true, none⟩
    else some ⟨e, text, true, none⟩
  | Key.Backspace =>
    if e.cursor_position > 0 then
      match removeAt text (e.cursor_position - 1) with
      | none => none
      | some t2 =>
        match updateLC t2 (e.cursor_position - 1) with
        | none => none
        | some lc =>
          some ⟨{ e with cursor_position := e.cursor_position - 1, cursor_line := lc.1, cursor_column := lc.2 },
                t2, true, none⟩
    else some ⟨e, text, true, none⟩
  | Key.Delete =>
    if e.cursor_position < blen text then
      match removeAt text e.cursor_position with
      | none => none
      | some t2 =>
        match updateLC t2 e.cursor_position with
        | none => none
        | some lc =>
          some ⟨{ e with cursor_line := lc.1, cursor_column := lc.2 },
                t2, true, none⟩
    else some ⟨e, text, true, none⟩
  | Key.ArrowLeft => hStep e text
  | Key.ArrowRight => lStep e text
  | Key.ArrowUp => upStep e text
  | Key.ArrowDown => downStep e text
  | Key.Home => homeStep e text
  | Key.End => endStep e text
  | _ =>
    some ⟨{ e with desired_column := e.cursor_column }, text, false, none⟩

/-- Rust `execute_command`: the fixed command vocabulary. -/
def execute_command (e : Editor) : Option Action :=
  if e.command_buffer = ":w".toList then some Action.save
  else if e.command_buffer = ":q".toList then some Action.quit
  else if e.command_buffer = ":wq".toList then some Action.save_quit
  else none

/-- Rust `handle_command_mode_key`.  The length test of Backspace is byte
length (`String::len`). -/
def handle_command_mode_key (e : Editor) (k : Key) (text : List Char)
    (_m : Modifiers) : Option StepOut :=
  match k with
  | Key.Escape =>
    some ⟨{ e with vim_mode := VimMode.Normal, command_buffer := [] },
          text, true, none⟩
  | Key.Enter =>
    some ⟨{ e with vim_mode := VimMode.Normal, command_buffer := [] },
          text, true, execute_command e⟩
  | Key.Backspace =>
    if blen e.command_buffer > 1 then
      some ⟨{ e with command_buffer := e.command_buffer.dropLast },
            text, true, none⟩
    else some ⟨e, text, true, none⟩
  | _ => some ⟨e, text, false, none⟩

/-- Rust `handle_key_press`: dispatch on the current mode. -/
def handle_key_press (e : Editor) (k : Key) (text : List Char)
    (m : Modifiers) : Option StepOut :=
  match e.vim_mode with
  | VimMode.Normal => handle_normal_mode_key e k text m
  | VimMode.Insert => handle_insert_mode_key e k text m
  | VimMode.Command => handle_command_mode_key e k text m

/-- Rust `handle_text_input`: one character of text input. -/
def handle_text_input (e : Editor) (c : Char) (text : List Char) :
    Option (Editor × List Char) :=
  match e.vim_mode with
  | VimMode.Insert =>
    if c ≥ ' ' ∨ c = '\n' ∨ c = '\t' then
      if e.cursor_position ≤ blen text then
        match insertStr text e.cursor_position [c] with
        | none => none
        | some t2 =>
          match updateLC t2 (e.cursor_position + 1) with
          | none => none
          | some lc =>
            some ({ e with cursor_position := e.cursor_position + 1, cursor_line := lc.1, cursor_column := lc.2 }, t2)
      else some (e, text)
    else some (e, text)
  | VimMode.Command =>
    if c ≥ ' ' then
      some ({ e with command_buffer := e.command_buffer ++ [c] }, text)
    else some (e, text)
  | VimMode.Normal => some (e, text)

/-- True exactly for the `(operation, key)` pairs that have an arm in the
pending-operation `match` of `handle_normal_mode_key`; every other
combination abandons the pending operation. -/
def pendingMatches : VimOperation → Key → Bool
  | VimOperation.Delete, Key.W => true
  | VimOperation.Delete, Key.D => true
  | VimOperation.Delete, Key.I => true
  | VimOperation.Yank, Key.W => true
  | VimOperation.Yank, Key.Y => true
  | VimOperation.Change, Key.W => true
  | VimOperation.Change, Key.I => true
  | VimOperation.Change, Key.C => true
  | _, _ => false

end VimNote

namespace VimNote

theorem csz_pos (c : Char) : 0 < csz c := Char.utf8Size_pos c

theorem blen_append (xs ys : List Char) :
    blen (xs ++ ys) = blen xs + blen ys := by
  induction xs with
  | nil => simp [blen]
  | cons c cs ih => simp [blen, ih]; omega

theorem blen_ascii (cs : List Char) (h : ∀ c ∈ cs, csz c = 1) :
    blen cs = cs.length := by
  induction cs with
  | nil => rfl
  | cons c cs ih =>
    have hc : csz c = 1 := h c (List.mem_cons_self c cs)
    simp [blen, hc, ih (fun x hx => h x (List.mem_cons_of_mem c hx))]
    omega

theorem blen_eq_zero (cs : List Char) (h : blen cs = 0) : cs = [] := by
  cases cs with
  | nil => rfl
  | cons c cs =>
    exfalso
    have := csz_pos c
    simp [blen] at h
    omega

theorem takeB_zero (cs : List Char) : takeB cs 0 = some [] := by
  cases cs <;> rfl

theorem dropB_zero (cs : List Char) : dropB cs 0 = some cs := by
  cases cs <;> rfl

theorem takeB_addl (xs ys : List Char) (k : Nat) :
    takeB (xs ++ ys) (blen xs + k) = (takeB ys k).map (fun l => xs ++ l) := by
  induction xs with
  | nil =>
    simp only [List.nil_append, blen, Nat.zero_add]
    cases takeB ys k <;> simp
  | cons c cs ih =>
    have hc := csz_pos c
    have hsum : csz c + blen cs + k = (csz c + blen cs + k - 1) + 1 := by omega
    show takeB (c :: (cs ++ ys)) (csz c + blen cs + k) = _
    rw [hsum]
    show (if csz c + blen cs + k - 1 + 1 < csz c then none
          else (takeB (cs ++ ys) (csz c + blen cs + k - 1 + 1 - csz c)).map
            (fun l => c :: l)) = _
    have hlt : ¬ (csz c + blen cs + k - 1 + 1 < csz c) := by omega
    rw [if_neg hlt]
    have harg : csz c + blen cs + k - 1 + 1 - csz c = blen cs + k := by omega
    rw [harg, ih]
    cases takeB ys k <;> simp

theorem dropB_addl (xs ys : List Char) (k : Nat) :
    dropB (xs ++ ys) (blen xs + k) = dropB ys k := by
  induction xs with
  | nil => simp [blen]
  | cons c cs ih =>
    have hc := csz_pos c
    have hsum : csz c + blen cs + k = (csz c + blen cs + k - 1) + 1 := by omega
    show dropB (c :: (cs ++ ys)) (csz c + blen cs + k) = _
    rw [hsum]
    show (if csz c + blen cs + k - 1 + 1 < csz c then none
          else dropB (cs ++ ys) (csz c + blen cs + k - 1 + 1 - csz c)) = _
    have hlt : ¬ (csz c + blen cs + k - 1 + 1 < csz c) := by omega
    rw [if_neg hlt]
    have harg : csz c + blen cs + k - 1 + 1 - csz c = blen cs + k := by omega
    rw [harg, ih]

theorem takeB_blen (xs ys : List Char) : takeB (xs ++ ys) (blen xs) = some xs := by
  have := takeB_addl xs ys 0
  simpa [takeB_zero] using this

theorem dropB_blen (xs ys : List Char) : dropB (xs ++ ys) (blen xs) = some ys := by
  have := dropB_addl xs ys 0
  simpa [dropB_zero] using this

theorem takeB_self (xs : List Char) : takeB xs (blen xs) = some xs := by
  simpa using takeB_blen xs []

theorem takeB_eq_some (cs : List Char) (k : Nat) (p : List Char)
    (h : takeB cs k = some p) :
    blen p = k ∧ ∃ s, cs = p ++ s ∧ dropB cs k = some s := by
  induction cs generalizing k p with
  | nil =>
    cases k with
    | zero =>
      simp [takeB_zero] at h
      subst h
      exact ⟨rfl, [], rfl, dropB_zero []⟩
    | succ k => simp [takeB] at h
  | cons c cs ih =>
    cases k with
    | zero =>
      simp [takeB_zero] at h
      subst h
      exact ⟨rfl, c :: cs, rfl, dropB_zero _⟩
    | succ k =>
      by_cases hlt : k + 1 < csz c
      · simp [takeB, hlt] at h
      · simp only [takeB, if_neg hlt, Option.map_eq_some'] at h
        obtain ⟨q, hq, hpq⟩ := h
        obtain ⟨hblen, s, hcs, hdrop⟩ := ih (k + 1 - csz c) q hq
        subst hpq
        have hc := csz_pos c
        refine ⟨by simp [blen, hblen]; omega, s, by simp [hcs], ?_⟩
        show dropB (c :: cs) (k + 1) = some s
        simp only [dropB, if_neg hlt]
        exact hdrop

theorem isBoundary_iff (cs : List Char) (i : Nat) :
    isBoundary cs i = true ↔ ∃ p, takeB cs i = some p := by
  simp [isBoundary, Option.isSome_iff_exists]

theorem findNL_eq_none (xs : List Char) (h : '\n' ∉ xs) : findNL xs = none := by
  induction xs with
  | nil => rfl
  | cons c cs ih =>
    have hc : ¬ (c = '\n') := fun hh => h (hh ▸ List.mem_cons_self c cs)
    simp [findNL, hc, ih (fun hx => h (List.mem_cons_of_mem c hx))]

theorem findNL_append_nl (xs ys : List Char) (h : '\n' ∉ xs) :
    findNL (xs ++ '\n' :: ys) = some (blen xs) := by
  induction xs with
  | nil => simp [findNL, blen]
  | cons c cs ih =>
    have hc : ¬ (c = '\n') := fun hh => h (hh ▸ List.mem_cons_self c cs)
    simp [findNL, hc, ih (fun hx => h (List.mem_cons_of_mem c hx)), blen]

theorem rfindNL_eq_none (xs : List Char) (h : '\n' ∉ xs) : rfindNL xs = none := by
  induction xs with
  | nil => rfl
  | cons c cs ih =>
    have hc : ¬ (c = '\n') := fun hh => h (hh ▸ List.mem_cons_self c cs)
    simp [rfindNL, hc, ih (fun hx => h (List.mem_cons_of_mem c hx))]

theorem rfindNL_cons (c : Char) (cs : List Char) :
    rfindNL (c :: cs) =
      match rfindNL cs with
      | some i => some (csz c + i)
      | none => if c = '\n' then some 0 else none := rfl

theorem rfindNL_append_some (xs ys : List Char) (i : Nat)
    (h : rfindNL ys = some i) : rfindNL (xs ++ ys) = some (blen xs + i) := by
  induction xs with
  | nil => simpa [blen] using h
  | cons c cs ih =>
    rw [List.cons_append, rfindNL_cons, ih]
    simp [blen, Nat.add_assoc]

theorem rfindNL_append_none (xs ys : List Char) (h : rfindNL ys = none) :
    rfindNL (xs ++ ys) = rfindNL xs := by
  induction xs with
  | nil => simpa using h
  | cons c cs ih => rw [List.cons_append, rfindNL_cons, ih, rfindNL_cons]

theorem rfindNL_snoc_nl (xs : List Char) :
    rfindNL (xs ++ ['\n']) = some (blen xs) := by
  have : rfindNL ['\n'] = some 0 := rfl
  simpa using rfindNL_append_some xs ['\n'] 0 this

theorem lineStartOf_nonl (xs : List Char) (h : '\n' ∉ xs) :
    lineStartOf xs = 0 := by
  simp [lineStartOf, rfindNL_eq_none xs h]

theorem lineStartOf_append_nonl (xs ys : List Char) (h : '\n' ∉ ys) :
    lineStartOf (xs ++ '\n' :: ys) = blen xs + 1 := by
  have h1 : rfindNL ('\n' :: ys) = some 0 := by
    simp [rfindNL, rfindNL_eq_none ys h]
  simp [lineStartOf, rfindNL_append_some xs ('\n' :: ys) 0 h1]

theorem countNL_append (xs ys : List Char) :
    countNL (xs ++ ys) = countNL xs + countNL ys := by
  simp [countNL, List.count_append]

theorem countNL_eq_zero (xs : List Char) (h : '\n' ∉ xs) : countNL xs = 0 := by
  simp [countNL, List.count_eq_zero]
  intro hx
  exact h hx

theorem walkTo_run (cs : List Char) (pos limit cols target : Nat)
    (hascii : ∀ c ∈ cs, csz c = 1)
    (hlen : min (limit - pos) (target - cols) ≤ cs.length) :
    walkTo cs pos limit cols target = pos + min (limit - pos) (target - cols) := by
  induction cs generalizing pos cols with
  | nil =>
    simp at hlen
    simp [walkTo]
    omega
  | cons c cs ih =>
    have hc : csz c = 1 := hascii c (List.mem_cons_self c cs)
    by_cases hcond : pos < limit ∧ cols < target
    · have h1 := ih (pos + 1) (cols + 1)
        (fun x hx => hascii x (List.mem_cons_of_mem c hx))
        (by simp at hlen ⊢; omega)
      simp only [walkTo, if_pos hcond, hc] at *
      rw [h1]
      omega
    · simp only [walkTo, if_neg hcond]
      omega

theorem updateLC_of_takeB (text : List Char) (k : Nat) (p : List Char)
    (h : takeB text k = some p) :
    updateLC text k = some (countNL p, k - lineStartOf p) := by
  obtain ⟨hblen, s, hts, _⟩ := takeB_eq_some text k p h
  have hk : k ≤ blen text := by
    rw [hts, blen_append]
    omega
  simp [updateLC, if_pos hk, h]

theorem insertStr_spec (pre post s : List Char) :
    insertStr (pre ++ post) (blen pre) s = some (pre ++ s ++ post) := by
  simp [insertStr, takeB_blen, dropB_blen]

theorem sliceB_spec (pre mid post : List Char) :
    sliceB (pre ++ mid ++ post) (blen pre) (blen pre + blen mid) = some mid := by
  have h1 : pre ++ mid ++ post = pre ++ (mid ++ post) := by simp
  simp only [sliceB, h1, dropB_blen, if_pos (Nat.le_add_right (blen pre) (blen mid))]
  have h2 : blen pre + blen mid - blen pre = blen mid := by omega
  rw [h2]
  exact takeB_blen mid post

theorem removeRange_spec (pre mid post : List Char) :
    removeRange (pre ++ mid ++ post) (blen pre) (blen pre + blen mid) =
      some (pre ++ post) := by
  have hle : blen pre ≤ blen pre + blen mid := Nat.le_add_right _ _
  have ht : takeB (pre ++ mid ++ post) (blen pre) = some pre := by
    have h1 : pre ++ mid ++ post = pre ++ (mid ++ post) := by simp
    rw [h1, takeB_blen]
  have hd : dropB (pre ++ mid ++ post) (blen pre + blen mid) = some post := by
    have h3 : blen pre + blen mid = blen (pre ++ mid) := (blen_append pre mid).symm
    rw [h3, dropB_blen]
  simp only [removeRange, if_pos hle]
  rw [ht, hd]

end VimNote

namespace VimNote

theorem pasteStep_reg (e : Editor) (text : List Char) (m : Modifiers)
    (out : StepOut) (h : pasteStep e text m = some out) :
    out.ed.register_buffer = e.register_buffer := by
  unfold pasteStep at h
  repeat any_goals first
    | exact Option.noConfusion h
    | split at h
    | dsimp only at h
  all_goals (injection h with h2; subst h2; rfl)

theorem hStep_reg (e : Editor) (text : List Char)
    (out : StepOut) (h : hStep e text = some out) :
    out.ed.register_buffer = e.register_buffer := by
  unfold hStep at h
  repeat any_goals first
    | exact Option.noConfusion h
    | split at h
    | dsimp only at h
  all_goals (injection h with h2; subst h2; rfl)

theorem lStep_reg (e : Editor) (text : List Char)
    (out : StepOut) (h : lStep e text = some out) :
    out.ed.register_buffer = e.register_buffer := by
  unfold lStep at h
  repeat any_goals first
    | exact Option.noConfusion h
    | split at h
    | dsimp only at h
  all_goals (injection h with h2; subst h2; rfl)

theorem upStep_reg (e : Editor) (text : List Char)
    (out : StepOut) (h : upStep e text = some out) :
    out.ed.register_buffer = e.register_buffer := by
  unfold upStep at h
  repeat any_goals first
    | exact Option.noConfusion h
    | split at h
    | dsimp only at h
  all_goals (injection h with h2; subst h2; rfl)

theorem downStep_reg (e : Editor) (text : List Char)
    (out : StepOut) (h : downStep e text = some out) :
    out.ed.register_buffer = e.register_buffer := by
  unfold downStep at h
  repeat any_goals first
    | exact Option.noConfusion h
    | split at h
    | dsimp only at h
  all_goals (injection h with h2; subst h2; rfl)

theorem wMotionStep_reg (e : Editor) (text : List Char)
    (out : StepOut) (h : wMotionStep e text = some out) :
    out.ed.register_buffer = e.register_buffer := by
  unfold wMotionStep at h
  repeat any_goals first
    | exact Option.noConfusion h
    | split at h
    | dsimp only at h
  all_goals (injection h with h2; subst h2; rfl)

theorem bMotionStep_reg (e : Editor) (text : List Char)
    (out : StepOut) (h : bMotionStep e text = some out) :
    out.ed.register_buffer = e.register_buffer := by
  unfold bMotionStep at h
  repeat any_goals first
    | exact Option.noConfusion h
    | split at h
    | dsimp only at h
  all_goals (injection h with h2; subst h2; rfl)

theorem lineStartStep_reg (e : Editor) (text : List Char)
    (out : StepOut) (h : lineStartStep e text = some out) :
    out.ed.register_buffer = e.register_buffer := by
  unfold lineStartStep at h
  repeat any_goals first
    | exact Option.noConfusion h
    | split at h
    | dsimp only at h
  all_goals (injection h with h2; subst h2; rfl)

theorem lineEndStep_reg (e : Editor) (text : List Char)
    (out : StepOut) (h : lineEndStep e text = some out) :
    out.ed.register_buffer = e.register_buffer := by
  unfold lineEndStep at h
  repeat any_goals first
    | exact Option.noConfusion h
    | split at h
    | dsimp only at h
  all_goals (injection h with h2; subst h2; rfl)

theorem iStep_reg (e : Editor) (text : List Char) (m : Modifiers)
    (out : StepOut) (h : iStep e text m = some out) :
    out.ed.register_buffer = e.register_buffer := by
  unfold iStep at h
  repeat any_goals first
    | exact Option.noConfusion h
    | split at h
    | dsimp only at h
  all_goals (injection h with h2; subst h2; rfl)

theorem aStep_reg (e : Editor) (text : List Char) (m : Modifiers)
    (out : StepOut) (h : aStep e text m = some out) :
    out.ed.register_buffer = e.register_buffer := by
  unfold aStep at h
  repeat any_goals first
    | exact Option.noConfusion h
    | split at h
    | dsimp only at h
  all_goals (injection h with h2; subst h2; rfl)

theorem xStep_frame (e : Editor) (text : List Char)
    (out : StepOut) (h : xStep e text = some out) :
    out.ed.register_buffer = e.register_buffer ∧
      out.ed.vim_mode = e.vim_mode ∧
      out.ed.current_operation = e.current_operation := by
  unfold xStep at h
  repeat any_goals first
    | exact Option.noConfusion h
    | split at h
    | dsimp only at h
  all_goals (injection h with h2; subst h2; exact ⟨rfl, rfl, rfl⟩)

theorem oStep_reg (e : Editor) (text : List Char) (m : Modifiers)
    (out : StepOut) (h : oStep e text m = some out) :
    out.ed.register_buffer = e.register_buffer := by
  unfold oStep at h
  repeat any_goals first
    | exact Option.noConfusion h
    | split at h
    | dsimp only at h
  all_goals (injection h with h2; subst h2; rfl)

theorem normalBase_register (e : Editor) (k : Key) (text : List Char)
    (m : Modifiers) (out : StepOut) (h : normalBase e k text m = some out) :
    out.ed.register_buffer = e.register_buffer := by
  cases k with
  | D => injection h with h2; subst h2; rfl
  | Y => injection h with h2; subst h2; rfl
  | C => injection h with h2; subst h2; rfl
  | P => exact pasteStep_reg e text m out h
  | H => exact hStep_reg e text out h
  | ArrowLeft => exact hStep_reg e text out h
  | L => exact lStep_reg e text out h
  | ArrowRight => exact lStep_reg e text out h
  | K => exact upStep_reg e text out h
  | ArrowUp => exact upStep_reg e text out h
  | J => exact downStep_reg e text out h
  | ArrowDown => exact downStep_reg e text out h
  | W => exact wMotionStep_reg e text out h
  | B => exact bMotionStep_reg e text out h
  | Num0 => exact lineStartStep_reg e text out h
  | Num4 => exact lineEndStep_reg e text out h
  | I => exact iStep_reg e text m out h
  | A => exact aStep_reg e text m out h
  | Num9 =>
    simp only [normalBase] at h
    split at h
    · injection h with h2; subst h2; rfl
    · unfold normalOther at h; injection h with h2; subst h2; rfl
  | X => exact (xStep_frame e text out h).1
  | O => exact oStep_reg e text m out h
  | Escape => unfold normalBase normalOther at h; injection h with h2; subst h2; rfl
  | Enter => unfold normalBase normalOther at h; injection h with h2; subst h2; rfl
  | Backspace => unfold normalBase normalOther at h; injection h with h2; subst h2; rfl
  | Delete => unfold normalBase normalOther at h; injection h with h2; subst h2; rfl
  | Home => unfold normalBase normalOther at h; injection h with h2; subst h2; rfl
  | End => unfold normalBase normalOther at h; injection h with h2; subst h2; rfl
  | Other => unfold normalBase normalOther at h; injection h with h2; subst h2; rfl

theorem handle_normal_none (e : Editor) (k : Key) (text : List Char)
    (m : Modifiers) (hop : e.current_operation = VimOperation.None) :
    handle_normal_mode_key e k text m = normalBase e k text m := by
  unfold handle_normal_mode_key
  rw [if_neg (show ¬ (e.current_operation ≠ VimOperation.None) from
    fun hne => hne hop)]

theorem handle_normal_abandon (e : Editor) (k : Key) (text : List Char)
    (m : Modifiers) (hop : e.current_operation ≠ VimOperation.None)
    (hpm : pendingMatches e.current_operation k = false) :
    handle_normal_mode_key e k text m =
      normalBase { e with current_operation := VimOperation.None } k text m := by
  unfold handle_normal_mode_key
  rw [if_pos hop]
  cases ho : e.current_operation <;> cases k <;> simp_all [pendingMatches]

end VimNote

namespace VimNote

/-- C1: the spec claims every dispatch is total, but the engine is not:
`dd` on the last line of the two-line document `"a\nb"` computes
`adjusted_line_end = line_start - 1 = 1 < line_start = 2` and
`replace_range(2..1, "")` is a Rust panic (modelled as `none`); likewise the
`w` motion on the one-character document `"é"` slices `text[0..1]` inside
the two-byte character, a non-boundary slice panic.  The first conjunct
shows the panicking state is reached from an operator-free state by
pressing `d`. -/
theorem C1_dispatch_not_total :
    handle_key_press ⟨2, 1, 0, 0, VimMode.Normal, [], VimOperation.None, []⟩
        Key.D ("a\nb".toList) ⟨false⟩ =
      some ⟨⟨2, 1, 0, 0, VimMode.Normal, [], VimOperation.Delete, []⟩,
        "a\nb".toList, true, none⟩ ∧
    handle_key_press ⟨2, 1, 0, 0, VimMode.Normal, [], VimOperation.Delete, []⟩
        Key.D ("a\nb".toList) ⟨false⟩ = none ∧
    handle_key_press initialEditor Key.W ("é".toList) ⟨false⟩ = none := by
  refine ⟨rfl, rfl, rfl⟩

/-- C2: the spec claims the cursor always stays on a codepoint boundary,
but the right-arrow / `l` motion advances `cursor_position` by one raw
byte: on the document `"é"` (one two-byte codepoint) from offset `0` it
computes offset `1`, which splits the codepoint (second conjunct), and the
following `update_cursor_line_column` slice `&text[..1]` is a Rust panic
(first conjunct: the dispatch is modelled as `none`). -/
theorem C2_cursor_boundary_violated :
    handle_key_press initialEditor Key.L ("é".toList) ⟨false⟩ = none ∧
    isBoundary ("é".toList) 1 = false := by
  refine ⟨rfl, rfl⟩

/-- C4: on `"hello world"` with the cursor on `h` (offset 0), the keys
`d`, `i`, `w` remove exactly `"hello"`, leaving `" world"` with the cursor
at offset 0 and the register holding the removed word; with the cursor on
the space (offset 5), the same sequence removes only that single space,
leaving `"helloworld"`. -/
theorem C4_diw_hello_world :
    handle_key_press ⟨0, 0, 0, 0, VimMode.Normal, [], VimOperation.None, []⟩
        Key.D ("hello world".toList) ⟨false⟩ =
      some ⟨⟨0, 0, 0, 0, VimMode.Normal, [], VimOperation.Delete, []⟩,
        "hello world".toList, true, none⟩ ∧
    handle_key_press ⟨0, 0, 0, 0, VimMode.Normal, [], VimOperation.Delete, []⟩
        Key.I ("hello world".toList) ⟨false⟩ =
      some ⟨⟨0, 0, 0, 0, VimMode.Normal, [], VimOperation.Delete, ['i']⟩,
        "hello world".toList, true, none⟩ ∧
    handle_key_press ⟨0, 0, 0, 0, VimMode.Normal, [], VimOperation.Delete, ['i']⟩
        Key.W ("hello world".toList) ⟨false⟩ =
      some ⟨⟨0, 0, 0, 0, VimMode.Normal, [], VimOperation.None, "hello".toList⟩,
        " world".toList, true, none⟩ ∧
    handle_key_press ⟨5, 0, 5, 5, VimMode.Normal, [], VimOperation.None, []⟩
        Key.D ("hello world".toList) ⟨false⟩ =
      some ⟨⟨5, 0, 5, 5, VimMode.Normal, [], VimOperation.Delete, []⟩,
        "hello world".toList, true, none⟩ ∧
    handle_key_press ⟨5, 0, 5, 5, VimMode.Normal, [], VimOperation.Delete, []⟩
        Key.I ("hello world".toList) ⟨false⟩ =
      some ⟨⟨5, 0, 5, 5, VimMode.Normal, [], VimOperation.Delete, ['i']⟩,
        "hello world".toList, true, none⟩ ∧
    handle_key_press ⟨5, 0, 5, 5, VimMode.Normal, [], VimOperation.Delete, ['i']⟩
        Key.W ("hello world".toList) ⟨false⟩ =
      some ⟨⟨5, 0, 5, 5, VimMode.Normal, [], VimOperation.None, [' ']⟩,
        "helloworld".toList, true, none⟩ := by
  refine ⟨rfl, rfl, rfl, rfl, rfl, rfl⟩

/-- C3 counterexample: with the register holding `"x"`, pressing `d` keeps
the register, but then pressing the inner modifier `i` overwrites it with
the literal text `"i"` — so extending an operator with `i` does NOT leave
the register content unchanged, contrary to the claim. -/
theorem C3_inner_modifier_overwrites_register :
    handle_key_press ⟨0, 0, 0, 0, VimMode.Normal, [], VimOperation.None, ['x']⟩
        Key.D ("ab".toList) ⟨false⟩ =
      some ⟨⟨0, 0, 0, 0, VimMode.Normal, [], VimOperation.Delete, ['x']⟩,
        "ab".toList, true, none⟩ ∧
    handle_key_press ⟨0, 0, 0, 0, VimMode.Normal, [], VimOperation.Delete, ['x']⟩
        Key.I ("ab".toList) ⟨false⟩ =
      some ⟨⟨0, 0, 0, 0, VimMode.Normal, [], VimOperation.Delete, ['i']⟩,
        "ab".toList, true, none⟩ ∧
    (['i'] : List Char) ≠ ['x'] := by
  refine ⟨rfl, rfl, by decide⟩

/-- C6 counterexample: on the document `"é"` (cursor at offset 0, a valid
boundary) with the non-empty terminator-free register `"x"`, the
character-wise paste inserts at `cursor + 1` — one raw byte past the
cursor, inside the two-byte codepoint — and `insert_str` is a Rust panic
(`none`), so `p` does not insert the register content as claimed. -/
theorem C6_paste_panics_on_multibyte :
    handle_key_press ⟨0, 0, 0, 0, VimMode.Normal, [], VimOperation.None, ['x']⟩
      Key.P ("é".toList) ⟨false⟩ = none := rfl

/-- C7 counterexample: on the single-line document `"ab"` (no trailing
terminator) with the cursor at offset 0, `yy` stores `"ab"` — without any
line terminator — so the following `p` takes the character-wise branch and
produces `"aabb"`, not the duplicated-line document `"ab\nab"`. -/
theorem C7_yy_p_no_duplication_on_last_line :
    handle_key_press ⟨0, 0, 0, 0, VimMode.Normal, [], VimOperation.None, []⟩
        Key.Y ("ab".toList) ⟨false⟩ =
      some ⟨⟨0, 0, 0, 0, VimMode.Normal, [], VimOperation.Yank, []⟩,
        "ab".toList, true, none⟩ ∧
    handle_key_press ⟨0, 0, 0, 0, VimMode.Normal, [], VimOperation.Yank, []⟩
        Key.Y ("ab".toList) ⟨false⟩ =
      some ⟨⟨0, 0, 0, 0, VimMode.Normal, [], VimOperation.None, "ab".toList⟩,
        "ab".toList, true, none⟩ ∧
    handle_key_press ⟨0, 0, 0, 0, VimMode.Normal, [], VimOperation.None, "ab".toList⟩
        Key.P ("ab".toList) ⟨false⟩ =
      some ⟨⟨3, 0, 3, 0, VimMode.Normal, [], VimOperation.None, "ab".toList⟩,
        "aabb".toList, true, none⟩ ∧
    ("aabb".toList ≠ "ab\nab".toList) := by
  refine ⟨rfl, rfl, rfl, by decide⟩

/-- C8 counterexample: in insert mode on the document `"é"` with the
cursor at offset 2 (end of the document), Escape steps the cursor back one
raw byte to offset 1, inside the two-byte codepoint, and the line/column
recomputation slice `&text[..1]` is a Rust panic (`none`) — so Escape does
not always transition to Normal with a one-codepoint step back. -/
theorem C8_escape_panics_on_multibyte :
    handle_key_press ⟨2, 0, 2, 0, VimMode.Insert, [], VimOperation.None, []⟩
      Key.Escape ("é".toList) ⟨false⟩ = none := rfl

/-- C9: in command mode, Enter returns exactly the action of the fixed
vocabulary (`":w"` → save, `":q"` → quit, `":wq"` → save_quit, anything
else → none), unconditionally switches to Normal, clears the command
buffer, and leaves the document untouched. -/
theorem C9_command_enter_fixed_vocabulary (e : Editor) (text : List Char)
    (m : Modifiers) (h : e.vim_mode = VimMode.Command) :
    handle_key_press e Key.Enter text m =
      some ⟨{ e with vim_mode := VimMode.Normal, command_buffer := [] }, text, true,
        if e.command_buffer = ":w".toList then some Action.save
        else if e.command_buffer = ":q".toList then some Action.quit
        else if e.command_buffer = ":wq".toList then some Action.save_quit
        else none⟩ := by
  unfold handle_key_press
  rw [h]
  rfl

/-- Witness for C9 at the concrete buffer `":q"`: Enter yields the `quit`
action, Normal mode, an empty buffer, and an unchanged document. -/
theorem C9_command_enter_fixed_vocabulary_witness :
    handle_key_press ⟨0, 0, 0, 0, VimMode.Command, ":q".toList, VimOperation.None, []⟩
        Key.Enter [] ⟨false⟩ =
      some ⟨⟨0, 0, 0, 0, VimMode.Normal, [], VimOperation.None, []⟩, [], true,
        some Action.quit⟩ := by
  have h := C9_command_enter_fixed_vocabulary
    ⟨0, 0, 0, 0, VimMode.Command, ":q".toList, VimOperation.None, []⟩ [] ⟨false⟩ rfl
  simpa using h

end VimNote

namespace VimNote

/-- C3 (amended): the register is overwritten when a Yank/Delete/Change
span is consumed and ALSO when the inner modifier `i` is pressed while
Delete or Change is pending (the engine stores the literal text `"i"` in
the register as lookahead state).  Everything else is frame-preserving:
with no operator pending, every Normal-mode key that completes — operator
initiators `d`/`y`/`c` and the paste `p` in particular — leaves the
register unchanged, and abandoning a pending operator with a key that has
no pending arm leaves it unchanged as well. -/
theorem C3_register_frame_amended :
    (∀ e k text m out, e.vim_mode = VimMode.Normal →
      e.current_operation = VimOperation.None →
      handle_key_press e k text m = some out →
      out.ed.register_buffer = e.register_buffer) ∧
    (∀ e k text m out, e.vim_mode = VimMode.Normal →
      e.current_operation ≠ VimOperation.None →
      pendingMatches e.current_operation k = false →
      handle_key_press e k text m = some out →
      out.ed.register_buffer = e.register_buffer) ∧
    (∀ e text m, e.vim_mode = VimMode.Normal →
      (e.current_operation = VimOperation.Delete ∨
        e.current_operation = VimOperation.Change) →
      handle_key_press e Key.I text m =
        some ⟨{ e with register_buffer := ['i'] }, text, true, none⟩) := by
  refine ⟨?_, ?_, ?_⟩
  · intro e k text m out hm hop h
    rw [show handle_key_press e k text m = handle_normal_mode_key e k text m by
      unfold handle_key_press; rw [hm]] at h
    rw [handle_normal_none e k text m hop] at h
    exact normalBase_register e k text m out h
  · intro e k text m out hm hop hpm h
    rw [show handle_key_press e k text m = handle_normal_mode_key e k text m by
      unfold handle_key_press; rw [hm]] at h
    rw [handle_normal_abandon e k text m hop hpm] at h
    exact normalBase_register
      { e with current_operation := VimOperation.None } k text m out h
  · intro e text m hm hop
    have hred : handle_key_press e Key.I text m =
        handle_normal_mode_key e Key.I text m := by
      unfold handle_key_press; rw [hm]
    rw [hred]
    unfold handle_normal_mode_key
    rcases hop with hd | hd <;> rw [hd] <;> rfl

/-- Witness for C3 at a concrete input: pasting with register `"r"` on
`"ab"` completes and leaves the register equal to `"r"`. -/
theorem C3_register_frame_amended_witness :
    handle_key_press ⟨0, 0, 0, 0, VimMode.Normal, [], VimOperation.None, ['r']⟩
        Key.P ("ab".toList) ⟨false⟩ =
      some ⟨⟨2, 0, 2, 0, VimMode.Normal, [], VimOperation.None, ['r']⟩,
        "arb".toList, true, none⟩ ∧
    (⟨⟨2, 0, 2, 0, VimMode.Normal, [], VimOperation.None, ['r']⟩,
      "arb".toList, true, none⟩ : StepOut).ed.register_buffer = ['r'] :=
  ⟨rfl, C3_register_frame_amended.1
    ⟨0, 0, 0, 0, VimMode.Normal, [], VimOperation.None, ['r']⟩ Key.P
    ("ab".toList) ⟨false⟩
    ⟨⟨2, 0, 2, 0, VimMode.Normal, [], VimOperation.None, ['r']⟩,
      "arb".toList, true, none⟩ rfl rfl rfl⟩

/-- C10: pressing `x` in Normal mode with no operator pending (and the
cursor on a codepoint boundary, the engine's document invariant) always
completes, never writes the deleted character into the register, and
leaves the register buffer, the mode and the pending-operator state all
unchanged — whether or not a character was deleted. -/
theorem C10_x_never_writes_register (e : Editor) (text : List Char)
    (m : Modifiers) (hm : e.vim_mode = VimMode.Normal)
    (hop : e.current_operation = VimOperation.None)
    (hb : isBoundary text e.cursor_position = true) :
    ∃ out, handle_key_press e Key.X text m = some out ∧
      out.ed.register_buffer = e.register_buffer ∧
      out.ed.vim_mode = e.vim_mode ∧
      out.ed.current_operation = VimOperation.None := by
  have hred : handle_key_press e Key.X text m = xStep e text := by
    unfold handle_key_press
    rw [hm]
    rw [handle_normal_none e Key.X text m hop]
    rfl
  rw [hred]
  clear hred
  by_cases hlt : e.cursor_position < blen text
  · obtain ⟨p, hp⟩ := (isBoundary_iff text e.cursor_position).mp hb
    obtain ⟨hbl, s, hts, hdrop⟩ := takeB_eq_some text e.cursor_position p hp
    have hs : s ≠ [] := by
      intro hnil
      subst hnil
      rw [hts, blen_append] at hlt
      simp [blen] at hlt
      omega
    obtain ⟨c, rest, hcr⟩ : ∃ c rest, s = c :: rest := by
      cases s with
      | nil => exact absurd rfl hs
      | cons c rest => exact ⟨c, rest, rfl⟩
    have hrm : removeAt text e.cursor_position = some (p ++ rest) := by
      unfold removeAt
      rw [hp, hdrop, hcr]
    have hup : updateLC (p ++ rest) e.cursor_position =
        some (countNL p, e.cursor_position - lineStartOf p) :=
      updateLC_of_takeB (p ++ rest) e.cursor_position p
        (by rw [← hbl]; exact takeB_blen p rest)
    refine ⟨⟨{ e with cursor_line := countNL p, cursor_column := e.cursor_position - lineStartOf p }, p ++ rest, true, none⟩, ?_, rfl, rfl, hop⟩
    unfold xStep
    simp only [if_pos hlt, hrm, hup]
  · refine ⟨⟨e, text, true, none⟩, ?_, rfl, rfl, hop⟩
    unfold xStep
    rw [if_neg hlt]

/-- Witness for C10 at a concrete input: `x` on `"ab"` with register
`"r"` completes with the register, mode and operator state unchanged. -/
theorem C10_x_never_writes_register_witness :
    ∃ out, handle_key_press
        ⟨0, 0, 0, 0, VimMode.Normal, [], VimOperation.None, ['r']⟩
        Key.X ("ab".toList) ⟨false⟩ = some out ∧
      out.ed.register_buffer = ['r'] ∧
      out.ed.vim_mode = VimMode.Normal ∧
      out.ed.current_operation = VimOperation.None :=
  C10_x_never_writes_register
    ⟨0, 0, 0, 0, VimMode.Normal, [], VimOperation.None, ['r']⟩
    ("ab".toList) ⟨false⟩ rfl rfl (by decide)

end VimNote

namespace VimNote

theorem takeB_at (X Y : List Char) (k : Nat) (h : blen X = k) :
    takeB (X ++ Y) k = some X := by
  subst h; exact takeB_blen X Y

theorem dropB_at (X Y : List Char) (k : Nat) (h : blen X = k) :
    dropB (X ++ Y) k = some Y := by
  subst h; exact dropB_blen X Y

theorem insertStr_at (X Y s : List Char) (k : Nat) (h : blen X = k) :
    insertStr (X ++ Y) k s = some (X ++ s ++ Y) := by
  subst h; exact insertStr_spec X Y s

theorem sliceB_at (X M Y : List Char) (a b : Nat) (ha : blen X = a)
    (hb : blen X + blen M = b) : sliceB (X ++ M ++ Y) a b = some M := by
  subst ha; subst hb; exact sliceB_spec X M Y

theorem removeRange_at (X M Y : List Char) (a b : Nat) (ha : blen X = a)
    (hb : blen X + blen M = b) :
    removeRange (X ++ M ++ Y) a b = some (X ++ Y) := by
  subst ha; subst hb; exact removeRange_spec X M Y

theorem updateLC_at (X Y : List Char) (k : Nat) (h : blen X = k) :
    updateLC (X ++ Y) k = some (countNL X, k - lineStartOf X) :=
  updateLC_of_takeB (X ++ Y) k X (takeB_at X Y k h)

/-- C8 (amended): Escape in insert mode moves to Normal and steps the
cursor back one byte — one codepoint exactly when the codepoint preceding
the cursor is one byte wide (the boundary hypothesis below; on a wider
codepoint the dispatch is a Rust panic, see the counterexample) — except
that the cursor does not move when it is at offset 0 or the document is
empty; the document content is unchanged. -/
theorem C8_escape_steps_back (e : Editor) (text : List Char) (m : Modifiers)
    (hm : e.vim_mode = VimMode.Insert)
    (hb : e.cursor_position = 0 ∨ text = [] ∨
      isBoundary text (e.cursor_position - 1) = true) :
    ∃ out, handle_key_press e Key.Escape text m = some out ∧
      out.ed.vim_mode = VimMode.Normal ∧
      out.text = text ∧
      out.ed.cursor_position =
        (if e.cursor_position > 0 ∧ text ≠ [] then e.cursor_position - 1
         else e.cursor_position) := by
  have hred : handle_key_press e Key.Escape text m =
      handle_insert_mode_key e Key.Escape text m := by
    unfold handle_key_press; rw [hm]
  rw [hred]
  unfold handle_insert_mode_key
  by_cases hc : e.cursor_position > 0 ∧ text ≠ []
  · have hb2 : isBoundary text (e.cursor_position - 1) = true := by
      rcases hb with h0 | hnil | hbb
      · omega
      · exact absurd hnil hc.2
      · exact hbb
    obtain ⟨p, hp⟩ := (isBoundary_iff text (e.cursor_position - 1)).mp hb2
    have hup := updateLC_of_takeB text (e.cursor_position - 1) p hp
    refine ⟨⟨{ e with vim_mode := VimMode.Normal, cursor_position := e.cursor_position - 1, cursor_line := countNL p, cursor_column := e.cursor_position - 1 - lineStartOf p }, text, true, none⟩, ?_, rfl, rfl, ?_⟩
    · simp only [if_pos hc, hup]
    · rw [if_pos hc]
  · refine ⟨⟨{ e with vim_mode := VimMode.Normal }, text, true, none⟩, ?_, rfl, rfl, ?_⟩
    · simp only [if_neg hc]
    · rw [if_neg hc]

/-- Witness for C8 at a concrete input: Escape on `"ab"` at offset 1
moves to Normal at offset 0 with the document unchanged. -/
theorem C8_escape_steps_back_witness :
    ∃ out, handle_key_press
        ⟨1, 0, 1, 0, VimMode.Insert, [], VimOperation.None, []⟩
        Key.Escape ("ab".toList) ⟨false⟩ = some out ∧
      out.ed.vim_mode = VimMode.Normal ∧
      out.text = "ab".toList ∧
      out.ed.cursor_position = 0 := by
  have h := C8_escape_steps_back
    ⟨1, 0, 1, 0, VimMode.Insert, [], VimOperation.None, []⟩ ("ab".toList)
    ⟨false⟩ rfl (Or.inr (Or.inr (by decide)))
  simpa using h

end VimNote

namespace VimNote

/-- C6 (amended): with a non-empty register containing no line terminator,
`p` in Normal mode inserts the register one byte past the cursor when the
cursor is before the end of the document and at the cursor otherwise —
which is immediately after the cursor's codepoint provided the insertion
offset is a codepoint boundary (the `takeB`/`dropB` hypotheses; on a
multi-byte codepoint at the cursor the dispatch is a Rust panic, see the
counterexample) — or exactly at the cursor when shift is held; the cursor
lands just past the inserted text and the register is unchanged.  With an
empty register, `p` changes neither the document nor the cursor. -/
theorem C6_paste_character_wise (e : Editor) (text : List Char)
    (hm : e.vim_mode = VimMode.Normal)
    (hop : e.current_operation = VimOperation.None) :
    (∀ (m : Modifiers) (pre post : List Char), m.shift = false →
      e.register_buffer ≠ [] →
      containsNL e.register_buffer = false →
      takeB text (if e.cursor_position < blen text then e.cursor_position + 1
        else e.cursor_position) = some pre →
      dropB text (if e.cursor_position < blen text then e.cursor_position + 1
        else e.cursor_position) = some post →
      ∃ out, handle_key_press e Key.P text m = some out ∧
        out.text = pre ++ e.register_buffer ++ post ∧
        out.ed.cursor_position =
          (if e.cursor_position < blen text then e.cursor_position + 1
            else e.cursor_position) + blen e.register_buffer ∧
        out.ed.register_buffer = e.register_buffer) ∧
    (∀ (m : Modifiers) (pre post : List Char), m.shift = true →
      e.register_buffer ≠ [] →
      containsNL e.register_buffer = false →
      takeB text e.cursor_position = some pre →
      dropB text e.cursor_position = some post →
      ∃ out, handle_key_press e Key.P text m = some out ∧
        out.text = pre ++ e.register_buffer ++ post ∧
        out.ed.cursor_position = e.cursor_position + blen e.register_buffer ∧
        out.ed.register_buffer = e.register_buffer) ∧
    (∀ (m : Modifiers), e.register_buffer = [] →
      handle_key_press e Key.P text m = some ⟨e, text, true, none⟩) := by
  have hredP : ∀ m : Modifiers,
      handle_key_press e Key.P text m = pasteStep e text m := by
    intro m
    unfold handle_key_press
    rw [hm, handle_normal_none e Key.P text m hop]
    rfl
  refine ⟨?_, ?_, ?_⟩
  · intro m pre post hs hr hnl hpre hpost
    have hins : insertStr text
        (if e.cursor_position < blen text then e.cursor_position + 1
          else e.cursor_position) e.register_buffer =
        some (pre ++ e.register_buffer ++ post) := by
      unfold insertStr
      rw [hpre, hpost]
    have hblp : blen pre =
        (if e.cursor_position < blen text then e.cursor_position + 1
          else e.cursor_position) :=
      (takeB_eq_some text _ pre hpre).1
    have hup : updateLC (pre ++ e.register_buffer ++ post)
        ((if e.cursor_position < blen text then e.cursor_position + 1
          else e.cursor_position) + blen e.register_buffer) =
        some (countNL (pre ++ e.register_buffer),
          (if e.cursor_position < blen text then e.cursor_position + 1
            else e.cursor_position) + blen e.register_buffer -
            lineStartOf (pre ++ e.register_buffer)) := by
      have h1 : pre ++ e.register_buffer ++ post =
          (pre ++ e.register_buffer) ++ post := by simp
      rw [h1]
      refine updateLC_at (pre ++ e.register_buffer) post _ ?_
      rw [blen_append, hblp]
    refine ⟨⟨{ e with cursor_position := (if e.cursor_position < blen text then e.cursor_position + 1 else e.cursor_position) + blen e.register_buffer, cursor_line := countNL (pre ++ e.register_buffer), cursor_column := (if e.cursor_position < blen text then e.cursor_position + 1 else e.cursor_position) + blen e.register_buffer - lineStartOf (pre ++ e.register_buffer) }, pre ++ e.register_buffer ++ post, true, none⟩, ?_, rfl, rfl, rfl⟩
    rw [hredP m]
    unfold pasteStep
    rw [if_pos hr, if_neg (show ¬ m.shift = true by simp [hs]),
      if_neg (show ¬ containsNL e.register_buffer = true by simp [hnl])]
    simp only [hins, hup]
  · intro m pre post hs hr hnl hpre hpost
    have hins : insertStr text e.cursor_position e.register_buffer =
        some (pre ++ e.register_buffer ++ post) := by
      unfold insertStr
      rw [hpre, hpost]
    have hblp : blen pre = e.cursor_position :=
      (takeB_eq_some text _ pre hpre).1
    have hup : updateLC (pre ++ e.register_buffer ++ post)
        (e.cursor_position + blen e.register_buffer) =
        some (countNL (pre ++ e.register_buffer),
          e.cursor_position + blen e.register_buffer -
            lineStartOf (pre ++ e.register_buffer)) := by
      have h1 : pre ++ e.register_buffer ++ post =
          (pre ++ e.register_buffer) ++ post := by simp
      rw [h1]
      refine updateLC_at (pre ++ e.register_buffer) post _ ?_
      rw [blen_append, hblp]
    refine ⟨⟨{ e with cursor_position := e.cursor_position + blen e.register_buffer, cursor_line := countNL (pre ++ e.register_buffer), cursor_column := e.cursor_position + blen e.register_buffer - lineStartOf (pre ++ e.register_buffer) }, pre ++ e.register_buffer ++ post, true, none⟩, ?_, rfl, rfl, rfl⟩
    rw [hredP m]
    unfold pasteStep
    rw [if_pos hr, if_pos hs,
      if_neg (show ¬ containsNL e.register_buffer = true by simp [hnl])]
    simp only [hins, hup]
  · intro m hemp
    rw [hredP m]
    unfold pasteStep
    rw [if_neg (show ¬ e.register_buffer ≠ [] by simp [hemp])]

/-- Witness for C6 at a concrete input: pasting register `"x"` on `"ab"`
at cursor 0 inserts after the first character, giving `"axb"` with the
cursor at 2 and the register unchanged. -/
theorem C6_paste_character_wise_witness :
    ∃ out, handle_key_press
        ⟨0, 0, 0, 0, VimMode.Normal, [], VimOperation.None, ['x']⟩
        Key.P ("ab".toList) ⟨false⟩ = some out ∧
      out.text = "axb".toList ∧
      out.ed.cursor_position = 2 ∧
      out.ed.register_buffer = ['x'] := by
  have h := (C6_paste_character_wise
    ⟨0, 0, 0, 0, VimMode.Normal, [], VimOperation.None, ['x']⟩
    ("ab".toList) rfl rfl).1 ⟨false⟩ ['a'] ['b'] rfl (by decide) rfl rfl rfl
  simpa using h

end VimNote

namespace VimNote

/-- C7 (amended): for every document and every valid cursor position on a
line that is terminated by a line terminator, `yy` then `p` duplicates the
current line immediately below it, and the paste leaves the register
unchanged.  (On a last line with no terminator the register receives no
terminator and `p` pastes character-wise instead — see the counterexample;
the document is written `A ++ L ++ '\n' :: B` with the cursor inside or at
the end of the line `L`, where `A` is the — possibly empty — text of the
preceding lines.) -/
theorem C7_yy_p_duplicates_terminated_line (e : Editor)
    (A L B : List Char) (m : Modifiers) (k : Nat)
    (hm : e.vim_mode = VimMode.Normal)
    (hop : e.current_operation = VimOperation.None)
    (hms : m.shift = false)
    (hA : A = [] ∨ ∃ A2, A = A2 ++ ['\n'])
    (hL : '\n' ∉ L)
    (hkb : isBoundary L k = true)
    (hcur : e.cursor_position = blen A + k) :
    ∃ o1 o2 o3,
      handle_key_press e Key.Y (A ++ L ++ '\n' :: B) m = some o1 ∧
      o1.text = A ++ L ++ '\n' :: B ∧
      handle_key_press o1.ed Key.Y o1.text m = some o2 ∧
      o2.text = A ++ L ++ '\n' :: B ∧
      o2.ed.register_buffer = L ++ ['\n'] ∧
      handle_key_press o2.ed Key.P o2.text m = some o3 ∧
      o3.text = A ++ L ++ '\n' :: (L ++ '\n' :: B) ∧
      o3.ed.register_buffer = L ++ ['\n'] := by
  obtain ⟨L1, hL1take⟩ := (isBoundary_iff L k).mp hkb
  obtain ⟨hbl1, L2, hLsplit, _⟩ := takeB_eq_some L k L1 hL1take
  have nl1 : '\n' ∉ L1 := fun hmem => hL (hLsplit ▸ List.mem_append_left L2 hmem)
  have nl2 : '\n' ∉ L2 := fun hmem => hL (hLsplit ▸ List.mem_append_right L1 hmem)
  have hble : blen (L ++ ['\n']) = blen L + 1 := by
    have h1 : blen ['\n'] = 1 := rfl
    rw [blen_append, h1]
  have hpreT : takeB (A ++ L ++ '\n' :: B) e.cursor_position =
      some (A ++ L1) := by
    have hform : A ++ L ++ '\n' :: B = (A ++ L1) ++ (L2 ++ '\n' :: B) := by
      rw [hLsplit]; simp
    rw [hform]
    exact takeB_at _ _ _ (by rw [blen_append, hbl1, hcur])
  have hsufT : dropB (A ++ L ++ '\n' :: B) e.cursor_position =
      some (L2 ++ '\n' :: B) := by
    have hform : A ++ L ++ '\n' :: B = (A ++ L1) ++ (L2 ++ '\n' :: B) := by
      rw [hLsplit]; simp
    rw [hform]
    exact dropB_at _ _ _ (by rw [blen_append, hbl1, hcur])
  have hls : lineStartOf (A ++ L1) = blen A := by
    rcases hA with hnilA | ⟨A2, hA2⟩
    · subst hnilA
      simp only [List.nil_append]
      rw [lineStartOf_nonl L1 nl1]
      rfl
    · subst hA2
      have hform : (A2 ++ ['\n']) ++ L1 = A2 ++ '\n' :: L1 := by simp
      rw [hform, lineStartOf_append_nonl A2 L1 nl1, blen_append]
      rfl
  have hfnl : findNL (L2 ++ '\n' :: B) = some (blen L2) :=
    findNL_append_nl L2 B nl2
  have hIdx : e.cursor_position + blen L2 + 1 = blen A + (blen L + 1) := by
    rw [hcur, hLsplit, blen_append, hbl1]
    omega
  have hslice : sliceB (A ++ L ++ '\n' :: B) (blen A) (blen A + (blen L + 1)) =
      some (L ++ ['\n']) := by
    have hform : A ++ L ++ '\n' :: B = A ++ (L ++ ['\n']) ++ B := by simp
    rw [hform]
    exact sliceB_at A (L ++ ['\n']) B _ _ rfl (by rw [hble])
  have hyyrun : yyStep { e with current_operation := VimOperation.Yank }
      (A ++ L ++ '\n' :: B) =
      some ⟨{ e with current_operation := VimOperation.None, register_buffer := L ++ ['\n'] }, A ++ L ++ '\n' :: B, true, none⟩ := by
    simp only [yyStep, hpreT, hsufT, hls, lineEndNL, hfnl, hIdx, hslice]
  have hk1red : handle_key_press e Key.Y (A ++ L ++ '\n' :: B) m =
      normalBase e Key.Y (A ++ L ++ '\n' :: B) m := by
    unfold handle_key_press
    rw [hm, handle_normal_none e Key.Y (A ++ L ++ '\n' :: B) m hop]
  have hk1 : handle_key_press e Key.Y (A ++ L ++ '\n' :: B) m =
      some ⟨{ e with current_operation := VimOperation.Yank }, A ++ L ++ '\n' :: B, true, none⟩ := by
    rw [hk1red]
    rfl
  have hk2 : handle_key_press { e with current_operation := VimOperation.Yank }
      Key.Y (A ++ L ++ '\n' :: B) m =
      yyStep { e with current_operation := VimOperation.Yank }
        (A ++ L ++ '\n' :: B) := by
    unfold handle_key_press
    rw [show ({ e with current_operation := VimOperation.Yank } : Editor).vim_mode = VimMode.Normal from hm]
    unfold handle_normal_mode_key
    rw [if_pos (show ({ e with current_operation := VimOperation.Yank } : Editor).current_operation ≠ VimOperation.None from fun hh => VimOperation.noConfusion hh)]
  have hk3 : handle_key_press { e with current_operation := VimOperation.None, register_buffer := L ++ ['\n'] } Key.P (A ++ L ++ '\n' :: B) m =
      pasteStep { e with current_operation := VimOperation.None, register_buffer := L ++ ['\n'] } (A ++ L ++ '\n' :: B) m := by
    unfold handle_key_press
    rw [show ({ e with current_operation := VimOperation.None, register_buffer := L ++ ['\n'] } : Editor).vim_mode = VimMode.Normal from hm]
    rw [handle_normal_none _ Key.P _ m rfl]
    rfl
  have hinsP : insertStr (A ++ L ++ '\n' :: B) (blen A + (blen L + 1))
      (L ++ ['\n']) =
      some ((A ++ L ++ ['\n']) ++ (L ++ ['\n']) ++ B) := by
    have hform : A ++ L ++ '\n' :: B = (A ++ L ++ ['\n']) ++ B := by simp
    rw [hform]
    refine insertStr_at _ _ _ _ ?_
    simp only [blen_append, show blen ['\n'] = 1 from rfl]
    omega
  have hupP : updateLC ((A ++ L ++ ['\n']) ++ (L ++ ['\n']) ++ B)
      (blen A + (blen L + 1) + blen (L ++ ['\n'])) =
      some (countNL ((A ++ L ++ ['\n']) ++ (L ++ ['\n'])),
        blen A + (blen L + 1) + blen (L ++ ['\n']) -
          lineStartOf ((A ++ L ++ ['\n']) ++ (L ++ ['\n']))) := by
    refine updateLC_at _ B _ ?_
    simp only [blen_append, show blen ['\n'] = 1 from rfl]
    omega
  have hpaste : pasteStep { e with current_operation := VimOperation.None, register_buffer := L ++ ['\n'] } (A ++ L ++ '\n' :: B) m =
      some ⟨{ e with current_operation := VimOperation.None, register_buffer := L ++ ['\n'], cursor_position := blen A + (blen L + 1) + blen (L ++ ['\n']), cursor_line := countNL ((A ++ L ++ ['\n']) ++ (L ++ ['\n'])), cursor_column := blen A + (blen L + 1) + blen (L ++ ['\n']) - lineStartOf ((A ++ L ++ ['\n']) ++ (L ++ ['\n'])) }, (A ++ L ++ ['\n']) ++ (L ++ ['\n']) ++ B, true, none⟩ := by
    unfold pasteStep
    rw [if_pos (show ({ e with current_operation := VimOperation.None, register_buffer := L ++ ['\n'] } : Editor).register_buffer ≠ [] by simp)]
    rw [if_neg (show ¬ m.shift = true by simp [hms])]
    rw [if_pos (show containsNL ({ e with current_operation := VimOperation.None, register_buffer := L ++ ['\n'] } : Editor).register_buffer = true by simp [containsNL])]
    simp only [hsufT, lineEndNL, hfnl, hIdx, hinsP, hupP]
  refine ⟨⟨{ e with current_operation := VimOperation.Yank }, A ++ L ++ '\n' :: B, true, none⟩, ⟨{ e with current_operation := VimOperation.None, register_buffer := L ++ ['\n'] }, A ++ L ++ '\n' :: B, true, none⟩, ⟨{ e with current_operation := VimOperation.None, register_buffer := L ++ ['\n'], cursor_position := blen A + (blen L + 1) + blen (L ++ ['\n']), cursor_line := countNL ((A ++ L ++ ['\n']) ++ (L ++ ['\n'])), cursor_column := blen A + (blen L + 1) + blen (L ++ ['\n']) - lineStartOf ((A ++ L ++ ['\n']) ++ (L ++ ['\n'])) }, (A ++ L ++ ['\n']) ++ (L ++ ['\n']) ++ B, true, none⟩, hk1, rfl, ?_, rfl, rfl, ?_, ?_, rfl⟩
  · dsimp only
    rw [hk2, hyyrun]
  · dsimp only
    rw [hk3, hpaste]
  · dsimp only
    simp

end VimNote
namespace VimNote

theorem C7_yy_p_duplicates_terminated_line_witness :
    ∃ o1 o2 o3,
      handle_key_press ⟨0, 0, 0, 0, VimMode.Normal, [], VimOperation.None, []⟩
        Key.Y ("ab\ncd".toList) ⟨false⟩ = some o1 ∧
      o1.text = "ab\ncd".toList ∧
      handle_key_press o1.ed Key.Y o1.text ⟨false⟩ = some o2 ∧
      o2.text = "ab\ncd".toList ∧
      o2.ed.register_buffer = "ab\n".toList ∧
      handle_key_press o2.ed Key.P o2.text ⟨false⟩ = some o3 ∧
      o3.text = "ab\nab\ncd".toList ∧
      o3.ed.register_buffer = "ab\n".toList := by
  have h := C7_yy_p_duplicates_terminated_line
    ⟨0, 0, 0, 0, VimMode.Normal, [], VimOperation.None, []⟩
    [] ("ab".toList) ("cd".toList) ⟨false⟩ 0 rfl rfl rfl (Or.inl rfl)
    (by decide) (by decide) rfl
  exact h

end VimNote

namespace VimNote

/-- C5: in a document whose lines after the starting (first) line have
lengths 2, 0 and 5 in that order (lines of one-byte codepoints, so byte
columns coincide with the claim's columns), starting at column 4 of a
first line of length at least 4 with `desired_column = 4`, pressing Down,
Down, Up, Up visits columns 2, 0, 2 and finally returns to column 4 (and
byte offset 4): the desired column saved before each vertical move is
restored afterward and used as the target column, clamped to each line's
length, with the empty line yielding column 0. -/
theorem C5_desired_column_stickiness (l0 l1 l3 r : List Char)
    (h0 : ∀ c ∈ l0, csz c = 1 ∧ c ≠ '\n')
    (h1 : ∀ c ∈ l1, csz c = 1 ∧ c ≠ '\n')
    (h3 : ∀ c ∈ l3, csz c = 1 ∧ c ≠ '\n')
    (hl0 : 4 ≤ l0.length) (hl1 : l1.length = 2) (hl3 : l3.length = 5) :
    ∃ o1 o2 o3 o4,
      handle_key_press ⟨4, 0, 4, 4, VimMode.Normal, [], VimOperation.None, r⟩
        Key.ArrowDown (l0 ++ '\n' :: (l1 ++ '\n' :: '\n' :: l3)) ⟨false⟩ = some o1 ∧
      o1.ed.cursor_column = 2 ∧ o1.ed.desired_column = 4 ∧
      o1.text = l0 ++ '\n' :: (l1 ++ '\n' :: '\n' :: l3) ∧
      handle_key_press o1.ed Key.ArrowDown o1.text ⟨false⟩ = some o2 ∧
      o2.ed.cursor_column = 0 ∧ o2.ed.desired_column = 4 ∧
      o2.text = l0 ++ '\n' :: (l1 ++ '\n' :: '\n' :: l3) ∧
      handle_key_press o2.ed Key.ArrowUp o2.text ⟨false⟩ = some o3 ∧
      o3.ed.cursor_column = 2 ∧ o3.ed.desired_column = 4 ∧
      o3.text = l0 ++ '\n' :: (l1 ++ '\n' :: '\n' :: l3) ∧
      handle_key_press o3.ed Key.ArrowUp o3.text ⟨false⟩ = some o4 ∧
      o4.ed.cursor_column = 4 ∧ o4.ed.cursor_position = 4 ∧
      o4.ed.desired_column = 4 := by
  have ascii0 : ∀ c ∈ l0, csz c = 1 := fun c hc => (h0 c hc).1
  have nonl0 : '\n' ∉ l0 := fun hc => (h0 '\n' hc).2 rfl
  have ascii1 : ∀ c ∈ l1, csz c = 1 := fun c hc => (h1 c hc).1
  have nonl1 : '\n' ∉ l1 := fun hc => (h1 '\n' hc).2 rfl
  have ascii3 : ∀ c ∈ l3, csz c = 1 := fun c hc => (h3 c hc).1
  have nonl3 : '\n' ∉ l3 := fun hc => (h3 '\n' hc).2 rfl
  have hb0 : blen l0 = l0.length := blen_ascii l0 ascii0
  have hb1 : blen l1 = 2 := by rw [blen_ascii l1 ascii1, hl1]
  have hb3 : blen l3 = 5 := by rw [blen_ascii l3 ascii3, hl3]
  have hTne : l0 ++ '\n' :: (l1 ++ '\n' :: '\n' :: l3) ≠ [] := by simp
  have hblT : blen (l0 ++ '\n' :: (l1 ++ '\n' :: '\n' :: l3)) = l0.length + 10 := by
    simp [blen_append, blen, show csz '\n' = 1 from rfl, hb0, hb1, hb3]
  have asciiS1 : ∀ c ∈ l1 ++ '\n' :: '\n' :: l3, csz c = 1 := by
    intro c hc
    rcases List.mem_append.mp hc with hcl | hcr
    · exact ascii1 c hcl
    · rcases List.mem_cons.mp hcr with he | hcr2
      · rw [he]; rfl
      · rcases List.mem_cons.mp hcr2 with he2 | hcr3
        · rw [he2]; rfl
        · exact ascii3 c hcr3
  have asciiT : ∀ c ∈ l0 ++ '\n' :: (l1 ++ '\n' :: '\n' :: l3), csz c = 1 := by
    intro c hc
    rcases List.mem_append.mp hc with hcl | hcr
    · exact ascii0 c hcl
    · rcases List.mem_cons.mp hcr with he | hcr2
      · rw [he]; rfl
      · exact asciiS1 c hcr2
  -- prefix split at byte 4
  have asciiT4 : ∀ c ∈ l0.take 4, csz c = 1 :=
    fun c hc => ascii0 c (List.take_subset 4 l0 hc)
  have nonlT4 : '\n' ∉ l0.take 4 := fun hc => nonl0 (List.take_subset 4 l0 hc)
  have hbtake4 : blen (l0.take 4) = 4 := by
    rw [blen_ascii _ asciiT4, List.length_take]
    omega
  have hTsplit4 : l0 ++ '\n' :: (l1 ++ '\n' :: '\n' :: l3) =
      l0.take 4 ++ (l0.drop 4 ++ '\n' :: (l1 ++ '\n' :: '\n' :: l3)) := by
    conv_lhs => rw [← List.take_append_drop 4 l0]
    rw [List.append_assoc]
  have hd4 : dropB (l0 ++ '\n' :: (l1 ++ '\n' :: '\n' :: l3)) 4 =
      some (l0.drop 4 ++ '\n' :: (l1 ++ '\n' :: '\n' :: l3)) := by
    rw [hTsplit4]
    exact dropB_at _ _ _ hbtake4
  have asciiD4 : ∀ c ∈ l0.drop 4, csz c = 1 :=
    fun c hc => ascii0 c (List.drop_subset 4 l0 hc)
  have nonlD4 : '\n' ∉ l0.drop 4 := fun hc => nonl0 (List.drop_subset 4 l0 hc)
  have hbdrop4 : blen (l0.drop 4) = l0.length - 4 := by
    rw [blen_ascii _ asciiD4, List.length_drop]
  have hfnl4 : findNL (l0.drop 4 ++ '\n' :: (l1 ++ '\n' :: '\n' :: l3)) =
      some (l0.length - 4) := by
    rw [findNL_append_nl _ _ nonlD4, hbdrop4]
  -- prefix splits at n, n+1, n+3, n+4
  have hdN1 : dropB (l0 ++ '\n' :: (l1 ++ '\n' :: '\n' :: l3)) (l0.length + 1) =
      some (l1 ++ '\n' :: '\n' :: l3) := by
    rw [show l0 ++ '\n' :: (l1 ++ '\n' :: '\n' :: l3) =
      (l0 ++ ['\n']) ++ (l1 ++ '\n' :: '\n' :: l3) from by simp]
    refine dropB_at _ _ _ ?_
    rw [blen_append, hb0]
    rfl
  have hfl1 : findNL (l1 ++ '\n' :: '\n' :: l3) = some 2 := by
    rw [findNL_append_nl _ _ nonl1, hb1]
  have hblP1 : blen (l0 ++ '\n' :: l1) = l0.length + 3 := by
    simp [blen_append, blen, show csz '\n' = 1 from rfl, hb0, hb1]
  have hsplit13 : l0 ++ '\n' :: (l1 ++ '\n' :: '\n' :: l3) =
      (l0 ++ '\n' :: l1) ++ ('\n' :: '\n' :: l3) := by simp
  have ht13 : takeB (l0 ++ '\n' :: (l1 ++ '\n' :: '\n' :: l3)) (l0.length + 3) =
      some (l0 ++ '\n' :: l1) := by
    rw [hsplit13]
    exact takeB_at _ _ _ hblP1
  have hd13 : dropB (l0 ++ '\n' :: (l1 ++ '\n' :: '\n' :: l3)) (l0.length + 3) =
      some ('\n' :: '\n' :: l3) := by
    rw [hsplit13]
    exact dropB_at _ _ _ hblP1
  have hblX : blen (l0 ++ '\n' :: (l1 ++ ['\n'])) = l0.length + 4 := by
    simp [blen_append, blen, show csz '\n' = 1 from rfl, hb0, hb1]
  have hsplit14 : l0 ++ '\n' :: (l1 ++ '\n' :: '\n' :: l3) =
      (l0 ++ '\n' :: (l1 ++ ['\n'])) ++ ('\n' :: l3) := by simp
  have ht14 : takeB (l0 ++ '\n' :: (l1 ++ '\n' :: '\n' :: l3)) (l0.length + 4) =
      some (l0 ++ '\n' :: (l1 ++ ['\n'])) := by
    rw [hsplit14]
    exact takeB_at _ _ _ hblX
  have hd14 : dropB (l0 ++ '\n' :: (l1 ++ '\n' :: '\n' :: l3)) (l0.length + 4) =
      some ('\n' :: l3) := by
    rw [hsplit14]
    exact dropB_at _ _ _ hblX
  have ht0 : takeB (l0 ++ '\n' :: (l1 ++ '\n' :: '\n' :: l3)) l0.length =
      some l0 := takeB_at _ _ _ hb0
  -- line starts and line/column recomputation
  have hlsP1 : lineStartOf (l0 ++ '\n' :: l1) = l0.length + 1 := by
    rw [lineStartOf_append_nonl l0 l1 nonl1, hb0]
  have hlsX : lineStartOf (l0 ++ '\n' :: (l1 ++ ['\n'])) = l0.length + 4 := by
    rw [show l0 ++ '\n' :: (l1 ++ ['\n']) = (l0 ++ '\n' :: l1) ++ '\n' :: []
      from by simp]
    rw [lineStartOf_append_nonl _ [] (by simp), hblP1]
  have hcnt1 : countNL (l0 ++ '\n' :: l1) = 1 := by
    rw [countNL_append, countNL_eq_zero l0 nonl0,
      show countNL ('\n' :: l1) = countNL l1 + 1 from by simp [countNL],
      countNL_eq_zero l1 nonl1]
  have hcntX : countNL (l0 ++ '\n' :: (l1 ++ ['\n'])) = 2 := by
    rw [show l0 ++ '\n' :: (l1 ++ ['\n']) = (l0 ++ '\n' :: l1) ++ '\n' :: []
      from by simp]
    rw [countNL_append, hcnt1,
      show countNL ('\n' :: []) = 1 from by simp [countNL]]
  have hcnt4 : countNL (l0.take 4) = 0 := countNL_eq_zero _ nonlT4
  have hls4 : lineStartOf (l0.take 4) = 0 := lineStartOf_nonl _ nonlT4
  have hup3 : updateLC (l0 ++ '\n' :: (l1 ++ '\n' :: '\n' :: l3))
      (l0.length + 3) = some (1, 2) := by
    rw [hsplit13, updateLC_at _ _ _ hblP1, hcnt1, hlsP1,
      show l0.length + 3 - (l0.length + 1) = 2 from by omega]
  have hup4 : updateLC (l0 ++ '\n' :: (l1 ++ '\n' :: '\n' :: l3))
      (l0.length + 4) = some (2, 0) := by
    rw [hsplit14, updateLC_at _ _ _ hblX, hcntX, hlsX,
      show l0.length + 4 - (l0.length + 4) = 0 from by omega]
  have hup0 : updateLC (l0 ++ '\n' :: (l1 ++ '\n' :: '\n' :: l3)) 4 =
      some (0, 4) := by
    rw [hTsplit4, updateLC_at _ _ _ hbtake4, hcnt4, hls4]
  -- the four motions
  have hfp1 : find_position_on_next_line
      ⟨4, 0, 4, 4, VimMode.Normal, [], VimOperation.None, r⟩
      (l0 ++ '\n' :: (l1 ++ '\n' :: '\n' :: l3)) =
      some (some (l0.length + 3)) := by
    unfold find_position_on_next_line
    rw [if_neg (by exact fun hh => hTne hh)]
    dsimp only
    rw [hd4]
    simp only [hfnl4]
    rw [show 4 + (l0.length - 4) + 1 = l0.length + 1 from by omega]
    rw [if_neg (show ¬ (l0.length + 1 ≥
      blen (l0 ++ '\n' :: (l1 ++ '\n' :: '\n' :: l3))) from by rw [hblT]; omega)]
    rw [hdN1]
    simp only [hfl1]
    rw [if_neg (show ¬ (l0.length + 1 = l0.length + 1 + 2) from by omega)]
    rw [show min (max 4 4) (l0.length + 1 + 2 - (l0.length + 1)) = 2 from by omega]
    rw [walkTo_run _ _ _ _ _ asciiS1 (by simp [hl1])]
    rw [show l0.length + 1 + min (l0.length + 1 + 2 - (l0.length + 1)) (2 - 0) =
      l0.length + 3 from by omega]
  have hfp2 : find_position_on_next_line
      ⟨l0.length + 3, 1, 2, 4, VimMode.Normal, [], VimOperation.None, r⟩
      (l0 ++ '\n' :: (l1 ++ '\n' :: '\n' :: l3)) =
      some (some (l0.length + 4)) := by
    unfold find_position_on_next_line
    rw [if_neg (by exact fun hh => hTne hh)]
    dsimp only
    rw [hd13]
    simp only [show findNL ('\n' :: '\n' :: l3) = some 0 from rfl]
    rw [show l0.length + 3 + 0 + 1 = l0.length + 4 from by omega]
    rw [if_neg (show ¬ (l0.length + 4 ≥
      blen (l0 ++ '\n' :: (l1 ++ '\n' :: '\n' :: l3))) from by rw [hblT]; omega)]
    rw [hd14]
    simp only [show findNL ('\n' :: l3) = some 0 from rfl]
    simp
  have hfp3 : find_position_on_previous_line
      ⟨l0.length + 4, 2, 0, 4, VimMode.Normal, [], VimOperation.None, r⟩
      (l0 ++ '\n' :: (l1 ++ '\n' :: '\n' :: l3)) =
      some (some (l0.length + 3)) := by
    unfold find_position_on_previous_line
    rw [if_neg (by exact fun hh => hTne hh)]
    dsimp only
    rw [ht14]
    simp only [hlsX]
    rw [if_neg (show ¬ (l0.length + 4 = 0) from by omega)]
    rw [show l0.length + 4 - 1 = l0.length + 3 from by omega]
    rw [ht13]
    simp only [hlsP1]
    rw [if_neg (show ¬ (l0.length + 1 = l0.length + 3) from by omega)]
    rw [show min (max 4 0) (l0.length + 3 - (l0.length + 1)) = 2 from by omega]
    simp only [hdN1]
    rw [walkTo_run _ _ _ _ _ asciiS1 (by simp [hl1])]
    rw [show l0.length + 1 + min (l0.length + 3 - (l0.length + 1)) (2 - 0) =
      l0.length + 3 from by omega]
  have hfp4 : find_position_on_previous_line
      ⟨l0.length + 3, 1, 2, 4, VimMode.Normal, [], VimOperation.None, r⟩
      (l0 ++ '\n' :: (l1 ++ '\n' :: '\n' :: l3)) =
      some (some 4) := by
    unfold find_position_on_previous_line
    rw [if_neg (by exact fun hh => hTne hh)]
    dsimp only
    rw [ht13]
    simp only [hlsP1]
    rw [if_neg (show ¬ (l0.length + 1 = 0) from by omega)]
    rw [show l0.length + 1 - 1 = l0.length from by omega]
    rw [ht0]
    simp only [lineStartOf_nonl l0 nonl0]
    rw [if_neg (show ¬ ((0 : Nat) = l0.length) from by omega)]
    rw [show min (max 4 2) (l0.length - 0) = 4 from by omega]
    simp only [dropB_zero]
    rw [walkTo_run _ _ _ _ _ asciiT (by simp [hl1, hl3])]
    rw [show 0 + min (l0.length - 0) (4 - 0) = 4 from by omega]
  -- assemble the four dispatches
  have hs1 : handle_key_press
      ⟨4, 0, 4, 4, VimMode.Normal, [], VimOperation.None, r⟩ Key.ArrowDown
      (l0 ++ '\n' :: (l1 ++ '\n' :: '\n' :: l3)) ⟨false⟩ =
      some ⟨⟨l0.length + 3, 1, 2, 4, VimMode.Normal, [], VimOperation.None, r⟩,
        l0 ++ '\n' :: (l1 ++ '\n' :: '\n' :: l3), true, none⟩ := by
    show downStep ⟨4, 0, 4, 4, VimMode.Normal, [], VimOperation.None, r⟩
      (l0 ++ '\n' :: (l1 ++ '\n' :: '\n' :: l3)) = _
    simp only [downStep, hfp1, hup3]
  have hs2 : handle_key_press
      ⟨l0.length + 3, 1, 2, 4, VimMode.Normal, [], VimOperation.None, r⟩
      Key.ArrowDown (l0 ++ '\n' :: (l1 ++ '\n' :: '\n' :: l3)) ⟨false⟩ =
      some ⟨⟨l0.length + 4, 2, 0, 4, VimMode.Normal, [], VimOperation.None, r⟩,
        l0 ++ '\n' :: (l1 ++ '\n' :: '\n' :: l3), true, none⟩ := by
    show downStep
      ⟨l0.length + 3, 1, 2, 4, VimMode.Normal, [], VimOperation.None, r⟩
      (l0 ++ '\n' :: (l1 ++ '\n' :: '\n' :: l3)) = _
    simp only [downStep, hfp2, hup4]
  have hs3 : handle_key_press
      ⟨l0.length + 4, 2, 0, 4, VimMode.Normal, [], VimOperation.None, r⟩
      Key.ArrowUp (l0 ++ '\n' :: (l1 ++ '\n' :: '\n' :: l3)) ⟨false⟩ =
      some ⟨⟨l0.length + 3, 1, 2, 4, VimMode.Normal, [], VimOperation.None, r⟩,
        l0 ++ '\n' :: (l1 ++ '\n' :: '\n' :: l3), true, none⟩ := by
    show upStep
      ⟨l0.length + 4, 2, 0, 4, VimMode.Normal, [], VimOperation.None, r⟩
      (l0 ++ '\n' :: (l1 ++ '\n' :: '\n' :: l3)) = _
    simp only [upStep, hfp3, hup3]
  have hs4 : handle_key_press
      ⟨l0.length + 3, 1, 2, 4, VimMode.Normal, [], VimOperation.None, r⟩
      Key.ArrowUp (l0 ++ '\n' :: (l1 ++ '\n' :: '\n' :: l3)) ⟨false⟩ =
      some ⟨⟨4, 0, 4, 4, VimMode.Normal, [], VimOperation.None, r⟩,
        l0 ++ '\n' :: (l1 ++ '\n' :: '\n' :: l3), true, none⟩ := by
    show upStep
      ⟨l0.length + 3, 1, 2, 4, VimMode.Normal, [], VimOperation.None, r⟩
      (l0 ++ '\n' :: (l1 ++ '\n' :: '\n' :: l3)) = _
    simp only [upStep, hfp4, hup0]
  exact ⟨_, _, _, _, hs1, rfl, rfl, rfl, hs2, rfl, rfl, rfl, hs3, rfl, rfl, rfl,
    hs4, rfl, rfl, rfl⟩

end VimNote

namespace VimNote

/-- Witness for C5 on the concrete document `"abcde\nxy\n\nvwxyz"`. -/
theorem C5_desired_column_stickiness_witness :
    ∃ o1 o2 o3 o4,
      handle_key_press ⟨4, 0, 4, 4, VimMode.Normal, [], VimOperation.None, []⟩
        Key.ArrowDown ("abcde\nxy\n\nvwxyz".toList) ⟨false⟩ = some o1 ∧
      o1.ed.cursor_column = 2 ∧ o1.ed.desired_column = 4 ∧
      o1.text = "abcde\nxy\n\nvwxyz".toList ∧
      handle_key_press o1.ed Key.ArrowDown o1.text ⟨false⟩ = some o2 ∧
      o2.ed.cursor_column = 0 ∧ o2.ed.desired_column = 4 ∧
      o2.text = "abcde\nxy\n\nvwxyz".toList ∧
      handle_key_press o2.ed Key.ArrowUp o2.text ⟨false⟩ = some o3 ∧
      o3.ed.cursor_column = 2 ∧ o3.ed.desired_column = 4 ∧
      o3.text = "abcde\nxy\n\nvwxyz".toList ∧
      handle_key_press o3.ed Key.ArrowUp o3.text ⟨false⟩ = some o4 ∧
      o4.ed.cursor_column = 4 ∧ o4.ed.cursor_position = 4 ∧
      o4.ed.desired_column = 4 := by
  have h := C5_desired_column_stickiness ("abcde".toList) ("xy".toList)
    ("vwxyz".toList) [] (by decide) (by decide) (by decide) (by decide)
    (by decide) (by decide)
  exact h

end VimNote
